import Mathlib

/-!
# karoo-routegraph: the OSM node importer (`osm/sqlite/main.go`)

A shallow embedding of the importer's `main` function.  The program reads a
stream of OSM entities from a PBF decoder, writes every node as one row
`(id, lat, lon, name)` into an SQLite table inside transactions of
`batchSize` rows, commits a last transaction and creates an index.

The decoder, the database and the operating system lie outside the program.  They are
represented by an environment `Env` that fixes the result of every fallible
call, and by a `State` that carries the table contents, the open transaction
and a trace of all fallible calls (with the error each one returned) and of
all lines written to standard output.

Modelling choices:
* `count` is a Go `int`; it is incremented once per inserted node and would
  need more than `2^63` nodes to wrap, so it is a `Nat`.
* `v.ID` is an `int64` that is only passed on and printed; it is an `Int`.
* `v.Lat`, `v.Lon` are `float64` values that are only passed on; they are
  carried as their bit pattern.
* A transaction that is never committed leaves no row in the table
  (`log.Fatalf` exits the process, SQLite rolls the journal back).
-/

namespace OsmSqlite

/-! ## Data -/

/-- An IEEE-754 double, carried as its 64-bit pattern; the program never
computes with coordinates. -/
structure Float64 where
  bits : Nat
  deriving DecidableEq, Repr

/-- A Go `map[string]string`; the nil map is the empty list. -/
abbrev Tags := List (String × String)

/-- Go map indexing `m[k]`: the stored value, or the zero value `""` when the
key is absent. -/
def mapIndex (m : Tags) (k : String) : String :=
  (m.lookup k).getD ""

/-- The fields of `osmpbf.Node` that the program can observe. -/
structure Node where
  id : Int
  lat : Float64
  lon : Float64
  tags : Tags
  deriving DecidableEq, Repr

/-- The entity `osmpbf.Way`. -/
structure Way where
  id : Int
  tags : Tags
  nodeIDs : List Int
  deriving DecidableEq, Repr

/-- The entity `osmpbf.Relation`; members are kept as `(id, role)`. -/
structure Relation where
  id : Int
  tags : Tags
  members : List (Int × String)
  deriving DecidableEq, Repr

/-- The dynamic type of the value returned by `d.Decode()`. -/
inductive Entity where
  | node (n : Node)
  | way (w : Way)
  | relation (r : Relation)
  deriving DecidableEq, Repr

/-- One result of `d.Decode()` before the end of the stream: an entity, or an
error other than `io.EOF`.  The end of the list is `io.EOF`. -/
inductive Decoded where
  | entity (v : Entity)
  | failure (err : String)
  deriving DecidableEq, Repr

/-- The four parameters bound by
`INSERT INTO nodes(id, lat, lon, tags) VALUES(?, ?, ?, ?)`. -/
structure Row where
  id : Int
  lat : Float64
  lon : Float64
  tags : String
  deriving DecidableEq, Repr

/-- The fallible calls of `main`, and `print` for a line on standard output.
Transactions are numbered in the order of their `db.Begin()`. -/
inductive Op where
  | openInput
  | startDecoder
  | removeDb
  | openDb
  | createTable
  | begin (tx : Nat)
  | prepare (tx : Nat)
  | decode
  | exec (tx : Nat) (row : Row)
  | closeStmt (tx : Nat)
  | commit (tx : Nat) (rows : List Row)
  | createIndex
  | print (line : String)
  deriving DecidableEq, Repr

/-- A call together with the error it returned (`none` is Go's `nil`; the
`io.EOF` of the last `Decode` is the end marker and is logged as `none`). -/
structure Event where
  op : Op
  err : Option String
  deriving DecidableEq, Repr

/-- The results of all calls into the outside world during one run. -/
structure Env where
  /-- The name of the program, `os.Args[0]`. -/
  prog : String
  /-- The remaining arguments, `os.Args[1:]`. -/
  args : List String
  openInputErr : Option String
  startErr : Option String
  removeErr : Option String
  openDbErr : Option String
  createTableErr : Option String
  /-- The error of the `db.Begin()` that opens transaction `tx`. -/
  beginErr : Nat → Option String
  /-- The error of the `tx.Prepare` of transaction `tx`. -/
  prepareErr : Nat → Option String
  /-- The decoder's results up to `io.EOF`. -/
  stream : List Decoded
  /-- The error of `stmtNode.Exec` for a row, given the rows the transaction
  sees (the committed rows followed by its own). -/
  execErr : List Row → Row → Option String
  /-- The error of `stmtNode.Close()` for the statement of transaction `tx`. -/
  closeErr : Nat → Option String
  /-- The error of `tx.Commit()` of transaction `tx`. -/
  commitErr : Nat → Option String
  indexErr : Option String
  /-- The text of `time.Since(startTime)`. -/
  elapsed : String

/-- The variables of `main` and the state of the database. -/
structure State where
  /-- All calls made so far, oldest first. -/
  trace : List Event
  /-- The committed rows of table `nodes`, in insertion order. -/
  store : List Row
  /-- The rows inserted in the open transaction. -/
  pending : List Row
  /-- The number of the open transaction `tx`. -/
  tx : Nat
  /-- The variable `count`. -/
  count : Nat
  deriving DecidableEq, Repr

/-- How the process ended (or `success` while it is still running). -/
inductive Exit where
  | success
  | fatal (msg : String)
  | usage
  deriving DecidableEq, Repr

/-- The exit status together with the state reached. -/
structure Outcome where
  exit : Exit
  st : State
  deriving DecidableEq, Repr

/-! ## The program -/

/-- The constant `batchSize`. -/
def batchSize : Nat := 2000000

/-- Append a call and its result to the trace. -/
def State.log (s : State) (op : Op) (err : Option String) : State :=
  { s with trace := s.trace ++ [⟨op, err⟩] }

/-- The call `log.Fatalf`: the process exits, nothing else runs. -/
def fatal (s : State) (msg : String) : Outcome := ⟨Exit.fatal msg, s⟩

/-- Execution goes on. -/
def proceed (s : State) : Outcome := ⟨Exit.success, s⟩

/-- Sequencing: the next part runs only when the process has not exited. -/
def Outcome.andThen (o : Outcome) (f : State → Outcome) : Outcome :=
  match o.exit with
  | Exit.success => f o.st
  | _ => o

/-- The format `"Processed %d nodes...\n"`. -/
def progressLine (count : Nat) : String :=
  "Processed " ++ toString count ++ " nodes...\n"

/-- The format `"Finished processing %d nodes in %s\n"`. -/
def summaryLine (count : Nat) (elapsed : String) : String :=
  "Finished processing " ++ toString count ++ " nodes in " ++ elapsed ++ "\n"

/-- The format `"Usage: %s <inputFile> <dbFile>\n"`. -/
def usageLine (prog : String) : String :=
  "Usage: " ++ prog ++ " <inputFile> <dbFile>\n"

/-- The arguments of `stmtNode.Exec(v.ID, v.Lat, v.Lon, name)` with
`name := v.Tags["name"]`. -/
def rowOf (v : Node) : Row :=
  ⟨v.id, v.lat, v.lon, mapIndex v.tags "name"⟩

/-- The calls `db.Begin()` and `tx.Prepare(...)` that open transaction `k`
(lines 68-75 and again lines 105-112). -/
def beginTx (env : Env) (k : Nat) (s : State) : Outcome :=
  match env.beginErr k with
  | some e => fatal (s.log (Op.begin k) (some e)) ("Error beginning transaction: " ++ e)
  | none =>
    let s1 : State := { s.log (Op.begin k) none with tx := k, pending := [] }
    match env.prepareErr k with
    | some e => fatal (s1.log (Op.prepare k) (some e)) ("Error preparing node statement: " ++ e)
    | none => proceed (s1.log (Op.prepare k) none)

/-- The body of `if count%batchSize == 0` (lines 96-112): close the
statement, commit, print the progress line, open the next transaction. -/
def rollover (env : Env) (s : State) : Outcome :=
  let s1 := s.log (Op.closeStmt s.tx) (env.closeErr s.tx)
  match env.commitErr s.tx with
  | some e =>
    fatal (s1.log (Op.commit s.tx s.pending) (some e)) ("Error committing transaction: " ++ e)
  | none =>
    let s2 : State :=
      { s1.log (Op.commit s.tx s.pending) none with store := s.store ++ s.pending, pending := [] }
    let s3 := s2.log (Op.print (progressLine s.count)) none
    beginTx env (s.tx + 1) s3

/-- The case `*osmpbf.Node` (lines 88-113). -/
def onNode (N : Nat) (env : Env) (s : State) (v : Node) : Outcome :=
  let row := rowOf v
  match env.execErr (s.store ++ s.pending) row with
  | some e =>
    fatal (s.log (Op.exec s.tx row) (some e))
      ("Error inserting node " ++ toString v.id ++ ": " ++ e)
  | none =>
    let s1 : State :=
      { s.log (Op.exec s.tx row) none with pending := s.pending ++ [row], count := s.count + 1 }
    if s1.count % N = 0 then rollover env s1 else proceed s1

/-- One iteration of the `for` loop on a result of `Decode` that is not
`io.EOF` (lines 81-119). -/
def step (N : Nat) (env : Env) (s : State) : Decoded → Outcome
  | Decoded.failure e => fatal (s.log Op.decode (some e)) ("Error decoding: " ++ e)
  | Decoded.entity (Entity.node v) => onNode N env (s.log Op.decode none) v
  | Decoded.entity (Entity.way _) => proceed (s.log Op.decode none)
  | Decoded.entity (Entity.relation _) => proceed (s.log Op.decode none)

/-- The iterations of the `for` loop over the given results of `Decode`. -/
def feed (N : Nat) (env : Env) : List Decoded → State → Outcome
  | [], s => proceed s
  | d :: rest, s => (step N env s d).andThen (feed N env rest)

/-- The last `Decode`, which returns `io.EOF` and leaves the loop. -/
def endOfStream (s : State) : Outcome := proceed (s.log Op.decode none)

/-- The code after the loop (lines 122-135): close the statement, commit the
open transaction, create the index, print the summary. -/
def finish (env : Env) (s : State) : Outcome :=
  let s1 := s.log (Op.closeStmt s.tx) (env.closeErr s.tx)
  match env.commitErr s.tx with
  | some e =>
    fatal (s1.log (Op.commit s.tx s.pending) (some e))
      ("Error committing final transaction: " ++ e)
  | none =>
    let s2 : State :=
      { s1.log (Op.commit s.tx s.pending) none with store := s.store ++ s.pending, pending := [] }
    match env.indexErr with
    | some e => fatal (s2.log Op.createIndex (some e)) ("Error creating lat index: " ++ e)
    | none =>
      proceed ((s2.log Op.createIndex none).log (Op.print (summaryLine s.count env.elapsed)) none)

/-- The state when the first transaction is about to be opened: an empty
table, `count` not yet incremented. -/
def State.init (trace : List Event) : State :=
  { trace := trace, store := [], pending := [], tx := 0, count := 0 }

/-- Lines 67-120 on a part of the stream: open transaction 0, then run the
loop over the given records (without the final `io.EOF`). -/
def ingest (N : Nat) (env : Env) (records : List Decoded) (s : State) : Outcome :=
  (beginTx env 0 s).andThen (feed N env records)

/-- Lines 67-135: the whole pipeline on a stream that ends after `records`. -/
def run (N : Nat) (env : Env) (records : List Decoded) (s : State) : Outcome :=
  ((ingest N env records s).andThen endOfStream).andThen (finish env)

/-- The function `main`. -/
def main (env : Env) : Outcome :=
  let s0 := State.init []
  if env.args.length < 2 then
    ⟨Exit.usage, s0.log (Op.print (usageLine env.prog)) none⟩
  else
    match env.openInputErr with
    | some e => fatal (s0.log Op.openInput (some e)) ("Error opening input file: " ++ e)
    | none =>
      let s1 := s0.log Op.openInput none
      match env.startErr with
      | some e => fatal (s1.log Op.startDecoder (some e)) ("Error starting decoder: " ++ e)
      | none =>
        let s2 := (s1.log Op.startDecoder none).log Op.removeDb env.removeErr
        match env.openDbErr with
        | some e => fatal (s2.log Op.openDb (some e)) ("Error opening database: " ++ e)
        | none =>
          let s3 := s2.log Op.openDb none
          match env.createTableErr with
          | some e => fatal (s3.log Op.createTable (some e)) ("Error creating tables: " ++ e)
          | none => run batchSize env env.stream (s3.log Op.createTable none)

/-! ## Observations -/

/-- The node carried by a decode result, if it is one. -/
def Decoded.node? : Decoded → Option Node
  | Decoded.entity (Entity.node v) => some v
  | _ => none

/-- The nodes among a list of decode results, in order. -/
def points (records : List Decoded) : List Node :=
  records.filterMap Decoded.node?

/-- The number and rows of a commit that succeeded. -/
def Event.commit? : Event → Option (Nat × List Row)
  | ⟨Op.commit k rows, none⟩ => some (k, rows)
  | _ => none

/-- The line of a print event. -/
def Event.print? : Event → Option String
  | ⟨Op.print line, _⟩ => some line
  | _ => none

/-- The row of an insert that succeeded. -/
def Event.exec? : Event → Option Row
  | ⟨Op.exec _ row, none⟩ => some row
  | _ => none

/-- The transactions committed in a trace, oldest first, each with its
number and rows. -/
def commitsOf (t : List Event) : List (Nat × List Row) :=
  t.filterMap Event.commit?

/-- The lines written to standard output in a trace. -/
def printsOf (t : List Event) : List String :=
  t.filterMap Event.print?

/-- The rows whose insert succeeded in a trace. -/
def execsOf (t : List Event) : List Row :=
  t.filterMap Event.exec?

/-- The rows of the `i`-th group of `N` consecutive nodes (`i` from 0). -/
def batch (N : Nat) (P : List Node) (i : Nat) : List Row :=
  ((P.drop (i * N)).take N).map rowOf

/-- The calls whose error `main` tests; the results of `os.Remove` and of
`stmtNode.Close()` are dropped, and `print` never fails. -/
def Op.checked : Op → Bool
  | Op.removeDb => false
  | Op.closeStmt _ => false
  | Op.print _ => false
  | _ => true

/-- The calls named in the pipeline's loop and commits: begin, prepare,
decode, insert and commit. -/
def Op.ingestStep : Op → Bool
  | Op.begin _ => true
  | Op.prepare _ => true
  | Op.decode => true
  | Op.exec _ _ => true
  | Op.commit _ _ => true
  | _ => false

/-- No call of the kind `p` in the trace returned an error. -/
def NoFailure (p : Op → Bool) (t : List Event) : Prop :=
  ∀ ev ∈ t, p ev.op = true → ev.err = none

/-- What the loop maintains after the nodes `P` have been inserted. -/
structure Inv (N : Nat) (P : List Node) (s : State) : Prop where
  count : s.count = P.length
  tx : s.tx = P.length / N
  store : s.store = (P.take (P.length / N * N)).map rowOf
  pending : s.pending = (P.drop (P.length / N * N)).map rowOf
  commits : commitsOf s.trace = (List.range (P.length / N)).map (fun i => (i, batch N P i))
  prints : printsOf s.trace = (List.range (P.length / N)).map (fun i => progressLine ((i + 1) * N))
  execs : execsOf s.trace = P.map rowOf
  index : ∀ ev ∈ s.trace, ev.op ≠ Op.createIndex

instance (p : Op → Bool) (t : List Event) : Decidable (NoFailure p t) := by
  unfold NoFailure; infer_instance

/-- A run in which every call succeeds, except that `os.Remove` finds no
file to remove. -/
def envQuiet : Env :=
  { prog := "osm2sqlite", args := ["planet.osm.pbf", "nodes.db"],
    openInputErr := none, startErr := none,
    removeErr := some "remove nodes.db: no such file or directory",
    openDbErr := none, createTableErr := none,
    beginErr := fun _ => none, prepareErr := fun _ => none,
    stream := [], execErr := fun _ _ => none, closeErr := fun _ => none,
    commitErr := fun _ => none, indexErr := none, elapsed := "1.5s" }

/-- A node with the given identifier and tags at coordinates with the given
bit patterns. -/
def mkNode (id : Int) (lat lon : Nat) (tags : Tags) : Decoded :=
  Decoded.entity (Entity.node ⟨id, ⟨lat⟩, ⟨lon⟩, tags⟩)

/-- The stream of end-to-end scenario 1: three nodes and a way. -/
def demoStream : List Decoded :=
  [mkNode 1 10 20 [("name", "A")], mkNode 2 11 21 [],
   Decoded.entity (Entity.way ⟨7, [("highway", "path")], [1, 2]⟩),
   mkNode 3 12 22 [("ele", "5")]]

/-- A record that is a way or a relation. -/
def Decoded.isOther : Decoded → Bool
  | Decoded.entity (Entity.way _) => true
  | Decoded.entity (Entity.relation _) => true
  | _ => false

/-- The stream without its ways and relations. -/
def dropOthers (records : List Decoded) : List Decoded :=
  records.filter (fun d => !d.isOther)

/-- The trace without the calls of `Decode` that returned no error. -/
def effects (t : List Event) : List Event :=
  t.filter (fun ev => decide (ev ≠ ⟨Op.decode, none⟩))

/-- Two states that differ at most in the successful `Decode` calls of their
traces. -/
def SameEffects (s s' : State) : Prop :=
  s.store = s'.store ∧ s.pending = s'.pending ∧ s.tx = s'.tx ∧ s.count = s'.count ∧
    effects s.trace = effects s'.trace

/-- Two outcomes with the same exit and the same effects. -/
def SameOutcome (o o' : Outcome) : Prop :=
  o.exit = o'.exit ∧ SameEffects o.st o'.st

/-- The database never refuses to begin, prepare or commit a transaction or
to create the index. -/
def SinkOk (env : Env) : Prop :=
  (∀ k, env.beginErr k = none) ∧ (∀ k, env.prepareErr k = none) ∧
    (∀ k, env.commitErr k = none) ∧ env.indexErr = none

/-- The decoder reports no error before the end of the stream. -/
def NoDecodeFailure (records : List Decoded) : Prop :=
  ∀ e, Decoded.failure e ∉ records

/-- The records of `demoStream` up to the way that follows the second node. -/
def demoHead : List Decoded := demoStream.take 3

/-- The stream of scenario 1 followed by a node with the identifier 2 again
and by a decode error. -/
def brokenStream : List Decoded :=
  demoStream ++ [mkNode 2 13 23 [], Decoded.failure "unexpected EOF"]

/-- A database with the primary key of table `nodes`: an insert fails when
the identifier is already present. -/
def envKey : Env :=
  { envQuiet with
    execErr := fun rows r =>
      if r.id ∈ rows.map Row.id then some "UNIQUE constraint failed: nodes.id" else none }

/-- The run on `brokenStream` with the primary key enforced. -/
def envBroken : Env := { envKey with stream := brokenStream }

/-- The run of scenario 1 in which `os.Remove` succeeds and every
`stmtNode.Close()` returns an error. -/
def envCloseFails : Env :=
  { envQuiet with
    removeErr := none, stream := demoStream,
    closeErr := fun _ => some "sql: statement close failed" }

/-- The environment with other results for `os.Remove` and
`stmtNode.Close()`. -/
def Env.withIgnored (env : Env) (r : Option String) (c : Nat → Option String) : Env :=
  { env with removeErr := r, closeErr := c }

/-- The trace with the errors of the untested calls blanked. -/
def scrub (t : List Event) : List Event :=
  t.map (fun ev => if ev.op.checked = true then ev else ⟨ev.op, none⟩)

/-- Two states that differ at most in the errors returned by untested
calls. -/
def Alike (s s' : State) : Prop :=
  s.store = s'.store ∧ s.pending = s'.pending ∧ s.tx = s'.tx ∧ s.count = s'.count ∧
    scrub s.trace = scrub s'.trace

/-- Two outcomes with the same exit that differ at most in the errors
returned by untested calls. -/
def AlikeOutcome (o o' : Outcome) : Prop :=
  o.exit = o'.exit ∧ Alike o.st o'.st

/-- The state with earlier calls put in front of its trace. -/
def State.shift (t : List Event) (s : State) : State :=
  { s with trace := t ++ s.trace }

/-- The outcome with earlier calls put in front of its trace. -/
def Outcome.shift (t : List Event) (o : Outcome) : Outcome :=
  ⟨o.exit, o.st.shift t⟩

/-- The calls of `main` before the first transaction when none of the tested
ones fails. -/
def setupTrace (env : Env) : List Event :=
  [⟨Op.openInput, none⟩, ⟨Op.startDecoder, none⟩, ⟨Op.removeDb, env.removeErr⟩,
   ⟨Op.openDb, none⟩, ⟨Op.createTable, none⟩]

/-- The process stops at the first tested call that returns an error: while
it runs no tested call has failed, and a fatal exit reports the error of the
last call made, a call of kind `q`. -/
def FailStop (q : Op → Bool) (o : Outcome) : Prop :=
  match o.exit with
  | Exit.success => NoFailure Op.checked o.st.trace
  | Exit.fatal m =>
    ∃ t op e p, o.st.trace = t ++ [⟨op, some e⟩] ∧ q op = true ∧ NoFailure Op.checked t ∧ m = p ++ e
  | Exit.usage => False

/-- Every commit call in the trace, failed or not, is for at most `N` rows. -/
def CommitBound (N : Nat) (t : List Event) : Prop :=
  ∀ ev ∈ t, ∀ k rows, ev.op = Op.commit k rows → rows.length ≤ N

/-- What holds of the counter and of the open transaction in every state,
after a failure too. -/
def Weak (N : Nat) (s : State) : Prop :=
  s.count = (execsOf s.trace).length ∧ s.pending.length ≤ N ∧ CommitBound N s.trace

/-- What holds in every outcome of the loop: `Weak`, and while the process
runs the open transaction holds `count % N` rows. -/
def WeakLoop (N : Nat) (o : Outcome) : Prop :=
  Weak N o.st ∧ (o.exit = Exit.success → o.st.pending.length = o.st.count % N)

/-! ## Lemmas -/

@[simp]
theorem commitsOf_nil : commitsOf [] = [] := rfl

@[simp]
theorem commitsOf_append (a b : List Event) : commitsOf (a ++ b) = commitsOf a ++ commitsOf b := by
  simp [commitsOf]

@[simp]
theorem printsOf_nil : printsOf [] = [] := rfl

@[simp]
theorem printsOf_append (a b : List Event) : printsOf (a ++ b) = printsOf a ++ printsOf b := by
  simp [printsOf]

@[simp]
theorem execsOf_nil : execsOf [] = [] := rfl

@[simp]
theorem execsOf_append (a b : List Event) : execsOf (a ++ b) = execsOf a ++ execsOf b := by
  simp [execsOf]

@[simp]
theorem points_nil : points [] = [] := rfl

@[simp]
theorem points_append (a b : List Decoded) : points (a ++ b) = points a ++ points b := by
  simp [points]

theorem batch_append (N : Nat) (P : List Node) (v : Node) (i : Nat) (h : i * N + N ≤ P.length) :
    batch N (P ++ [v]) i = batch N P i := by
  unfold batch
  rw [List.drop_append_of_le_length (by omega), List.take_append_of_le_length]
  simp
  omega

theorem div_step_eq (N n : Nat) (h : (n + 1) % N = 0) :
    0 < N ∧ (n + 1) / N = n / N + 1 ∧ (n / N + 1) * N = n + 1 := by
  have hN : 0 < N := by
    rcases Nat.eq_zero_or_pos N with h0 | h0
    · subst h0; simp at h
    · exact h0
  have hd : N ∣ n + 1 := Nat.dvd_of_mod_eq_zero h
  have h1 : (n + 1) / N = n / N + 1 := by
    rw [Nat.succ_div]; simp [hd]
  refine ⟨hN, h1, ?_⟩
  rw [← h1]; exact Nat.div_mul_cancel hd

theorem div_step_ne (N n : Nat) (h : ¬ (n + 1) % N = 0) :
    (n + 1) / N = n / N ∧ n / N * N ≤ n := by
  have hd : ¬ N ∣ n + 1 := fun hd => h (Nat.mod_eq_zero_of_dvd hd)
  refine ⟨?_, Nat.div_mul_le_self n N⟩
  rw [Nat.succ_div]; simp [hd]

theorem inv_init (N : Nat) : Inv N [] (State.init []) := by
  constructor <;> simp [State.init]

theorem inv_beginTx (N : Nat) (env : Env) (h : (beginTx env 0 (State.init [])).exit = Exit.success) :
    Inv N [] (beginTx env 0 (State.init [])).st := by
  unfold beginTx at h ⊢
  cases hb : env.beginErr 0 with
  | some e => simp [hb, fatal] at h
  | none =>
    cases hp : env.prepareErr 0 with
    | some e => simp [hb, hp, fatal] at h
    | none =>
      simp only [hb, hp]
      constructor <;> simp [State.init, State.log, proceed, commitsOf, printsOf, execsOf,
        Event.commit?, Event.print?, Event.exec?]

theorem inv_onNode (N : Nat) (env : Env) (P : List Node) (s : State) (v : Node)
    (hI : Inv N P s) (h : (onNode N env s v).exit = Exit.success) :
    Inv N (P ++ [v]) (onNode N env s v).st := by
  obtain ⟨hc, ht, hs, hp, hcm, hpr, hex, hix⟩ := hI
  unfold onNode at h ⊢
  cases hx : env.execErr (s.store ++ s.pending) (rowOf v) with
  | some e => simp [hx, fatal] at h
  | none =>
    simp only [hx] at h ⊢
    by_cases hm : (s.count + 1) % N = 0
    · have hm2 : (P.length + 1) % N = 0 := by rw [← hc]; exact hm
      obtain ⟨hN, hd, hmul⟩ := div_step_eq N P.length hm2
      simp only [State.log, hm, if_true] at h ⊢
      unfold rollover at h ⊢
      cases hcmt : env.commitErr s.tx with
      | some e => simp [hcmt, fatal, State.log] at h
      | none =>
        simp only [hcmt, State.log] at h ⊢
        unfold beginTx at h ⊢
        cases hb : env.beginErr (s.tx + 1) with
        | some e => simp [hb, fatal] at h
        | none =>
          cases hpp : env.prepareErr (s.tx + 1) with
          | some e => simp [hb, hpp, fatal] at h
          | none =>
            simp only [hb, hpp, proceed, State.log]
            have hlen : (P ++ [v]).length = P.length + 1 := by simp
            have hall : s.store ++ (s.pending ++ [rowOf v]) = (P ++ [v]).map rowOf := by
              rw [← List.append_assoc, hs, hp, ← List.map_append, List.take_append_drop]
              simp
            constructor
            · simp [hc]
            · simp [ht, hd]
            · simp only [hlen, hd, hmul]
              rw [hall, ← hlen, List.take_length]
            · simp only [hlen, hd, hmul]
              rw [← hlen, List.drop_length]; rfl
            · simp only [hlen, hd, commitsOf_append, hcm, List.range_succ, List.map_append]
              simp only [commitsOf, List.filterMap_cons, Event.commit?, List.filterMap_nil,
                List.append_nil, List.nil_append, List.map_cons, List.map_nil]
              congr 1
              · apply List.map_congr_left
                intro i hi
                rw [List.mem_range] at hi
                rw [batch_append]
                have : (i + 1) * N ≤ P.length / N * N := Nat.mul_le_mul_right N hi
                have e1 : (i + 1) * N = i * N + N := by ring
                have := Nat.div_mul_le_self P.length N
                omega
              · rw [ht, hp]
                unfold batch
                have e2 : P.length / N * N + N = P.length + 1 := by
                  have : (P.length / N + 1) * N = P.length / N * N + N := by ring
                  omega
                rw [List.take_of_length_le]
                · rw [List.drop_append_of_le_length (Nat.div_mul_le_self P.length N)]
                  simp
                · simp; omega
            · simp only [hlen, hd, printsOf_append, hpr, List.range_succ, List.map_append]
              simp [printsOf, Event.print?, hc, hmul]
            · simp only [execsOf_append, hex]
              simp [execsOf, Event.exec?]
            · intro ev hev
              simp only [List.mem_append, List.mem_singleton, or_assoc] at hev
              rcases hev with hev | hev | hev | hev | hev | hev | hev
              · exact hix ev hev
              all_goals (subst hev; simp)
    · have hm2 : ¬ (P.length + 1) % N = 0 := by rw [← hc]; exact hm
      obtain ⟨hd, hle⟩ := div_step_ne N P.length hm2
      simp only [State.log, hm, if_false, proceed]
      constructor
      · simp [hc]
      · simp [ht, hd]
      · simp only [List.length_append, List.length_singleton, hd]
        rw [List.take_append_of_le_length hle]; exact hs
      · simp only [List.length_append, List.length_singleton, hd]
        rw [List.drop_append_of_le_length hle]; simp [hp]
      · simp only [List.length_append, List.length_singleton, hd, commitsOf_append, hcm]
        simp only [commitsOf, List.filterMap_cons, Event.commit?, List.filterMap_nil, List.append_nil]
        apply List.map_congr_left
        intro i hi
        rw [List.mem_range] at hi
        rw [batch_append]
        have : (i + 1) * N ≤ P.length / N * N := Nat.mul_le_mul_right N hi
        have e1 : (i + 1) * N = i * N + N := by ring
        omega
      · simp only [List.length_append, List.length_singleton, hd, printsOf_append, hpr]
        simp [printsOf, Event.print?]
      · simp only [execsOf_append, hex]
        simp [execsOf, Event.exec?]
      · intro ev hev
        simp only [List.mem_append, List.mem_singleton] at hev
        rcases hev with hev | hev
        · exact hix ev hev
        · subst hev; simp

theorem andThen_of_success (o : Outcome) (f : State → Outcome) (h : o.exit = Exit.success) :
    o.andThen f = f o.st := by
  simp [Outcome.andThen, h]

theorem andThen_of_ne_success (o : Outcome) (f : State → Outcome) (h : o.exit ≠ Exit.success) :
    o.andThen f = o := by
  unfold Outcome.andThen
  split
  · contradiction
  · rfl

theorem success_of_andThen (o : Outcome) (f : State → Outcome)
    (h : (o.andThen f).exit = Exit.success) : o.exit = Exit.success := by
  by_contra hne
  rw [andThen_of_ne_success o f hne] at h
  exact hne h

theorem noFailure_nil (p : Op → Bool) : NoFailure p [] := by
  intro ev hev; simp at hev

theorem noFailure_concat (p : Op → Bool) (t : List Event) (ev : Event) :
    NoFailure p (t ++ [ev]) ↔ NoFailure p t ∧ (p ev.op = true → ev.err = none) := by
  unfold NoFailure
  constructor
  · intro h
    exact ⟨fun x hx => h x (by simp [hx]), h ev (by simp)⟩
  · rintro ⟨h1, h2⟩ x hx
    rw [List.mem_append, List.mem_singleton] at hx
    rcases hx with hx | hx
    · exact h1 x hx
    · subst hx; exact h2

theorem failStop_andThen (q : Op → Bool) (o : Outcome) (f : State → Outcome)
    (ho : FailStop q o) (hf : ∀ s, NoFailure Op.checked s.trace → FailStop q (f s)) :
    FailStop q (o.andThen f) := by
  by_cases h : o.exit = Exit.success
  · rw [andThen_of_success o f h]
    apply hf
    simpa [FailStop, h] using ho
  · rw [andThen_of_ne_success o f h]; exact ho

theorem failStop_mono (q q' : Op → Bool) (o : Outcome) (hq : ∀ op, q op = true → q' op = true)
    (ho : FailStop q o) : FailStop q' o := by
  unfold FailStop at ho ⊢
  split
  · rename_i h; simpa [h] using ho
  · rename_i m h
    rw [h] at ho
    obtain ⟨t, op, e, p, h1, h2, h3, h4⟩ := ho
    exact ⟨t, op, e, p, h1, hq op h2, h3, h4⟩
  · rename_i h; simp [h] at ho

theorem failStop_fatal (q : Op → Bool) (s : State) (op : Op) (e p : String)
    (hs : NoFailure Op.checked s.trace) (hq : q op = true) :
    FailStop q (fatal (s.log op (some e)) (p ++ e)) :=
  ⟨s.trace, op, e, p, rfl, hq, hs, rfl⟩

theorem failStop_proceed (q : Op → Bool) (s : State) (hs : NoFailure Op.checked s.trace) :
    FailStop q (proceed s) := hs

theorem noFailure_log (s : State) (op : Op) (err : Option String)
    (hs : NoFailure Op.checked s.trace) (h : op.checked = true → err = none) :
    NoFailure Op.checked (s.log op err).trace := by
  show NoFailure Op.checked (s.trace ++ [⟨op, err⟩])
  rw [noFailure_concat]; exact ⟨hs, h⟩

theorem failStop_beginTx (env : Env) (k : Nat) (s : State) (hs : NoFailure Op.checked s.trace) :
    FailStop Op.ingestStep (beginTx env k s) := by
  cases hb : env.beginErr k with
  | some e =>
    simp only [beginTx, hb]
    exact failStop_fatal _ _ _ _ _ hs rfl
  | none =>
    have h1 := noFailure_log s (Op.begin k) none hs (fun _ => rfl)
    cases hp : env.prepareErr k with
    | some e =>
      simp only [beginTx, hb, hp]
      exact failStop_fatal _ _ _ _ _ h1 rfl
    | none =>
      simp only [beginTx, hb, hp]
      apply failStop_proceed
      exact noFailure_log _ _ _ h1 (fun _ => rfl)

theorem failStop_rollover (env : Env) (s : State) (hs : NoFailure Op.checked s.trace) :
    FailStop Op.ingestStep (rollover env s) := by
  have h1 := noFailure_log s (Op.closeStmt s.tx) (env.closeErr s.tx) hs
    (fun h => by simp [Op.checked] at h)
  cases hc : env.commitErr s.tx with
  | some e =>
    simp only [rollover, hc]
    exact failStop_fatal _ _ _ _ _ h1 rfl
  | none =>
    simp only [rollover, hc]
    apply failStop_beginTx
    apply noFailure_log _ _ _ _ (fun _ => rfl)
    exact noFailure_log _ _ _ h1 (fun _ => rfl)

theorem failStop_onNode (N : Nat) (env : Env) (s : State) (v : Node)
    (hs : NoFailure Op.checked s.trace) : FailStop Op.ingestStep (onNode N env s v) := by
  cases hx : env.execErr (s.store ++ s.pending) (rowOf v) with
  | some e =>
    simp only [onNode, hx]
    exact failStop_fatal _ _ _ _ _ hs rfl
  | none =>
    have h1 := noFailure_log s (Op.exec s.tx (rowOf v)) none hs (fun _ => rfl)
    simp only [onNode, hx]
    split
    · exact failStop_rollover env _ h1
    · exact failStop_proceed _ _ h1

theorem failStop_step (N : Nat) (env : Env) (s : State) (d : Decoded)
    (hs : NoFailure Op.checked s.trace) : FailStop Op.ingestStep (step N env s d) := by
  have h1 := noFailure_log s Op.decode none hs (fun _ => rfl)
  cases d with
  | failure e => exact failStop_fatal _ _ _ _ _ hs rfl
  | entity v =>
    cases v with
    | node n => exact failStop_onNode N env _ n h1
    | way w => exact failStop_proceed _ _ h1
    | relation r => exact failStop_proceed _ _ h1

theorem failStop_feed (N : Nat) (env : Env) (l : List Decoded) :
    ∀ s : State, NoFailure Op.checked s.trace → FailStop Op.ingestStep (feed N env l s) := by
  induction l with
  | nil => intro s hs; exact hs
  | cons d rest ih =>
    intro s hs
    unfold feed
    exact failStop_andThen _ _ _ (failStop_step N env s d hs) ih

theorem failStop_endOfStream (s : State) (hs : NoFailure Op.checked s.trace) :
    FailStop Op.ingestStep (endOfStream s) :=
  failStop_proceed _ _ (noFailure_log s Op.decode none hs (fun _ => rfl))

theorem failStop_finish (env : Env) (s : State) (hs : NoFailure Op.checked s.trace) :
    FailStop Op.checked (finish env s) := by
  have h1 := noFailure_log s (Op.closeStmt s.tx) (env.closeErr s.tx) hs
    (fun h => by simp [Op.checked] at h)
  cases hc : env.commitErr s.tx with
  | some e =>
    simp only [finish, hc]
    exact failStop_fatal _ _ _ _ _ h1 rfl
  | none =>
    have h2 := noFailure_log _ (Op.commit s.tx s.pending) none h1 (fun _ => rfl)
    cases hi : env.indexErr with
    | some e =>
      simp only [finish, hc, hi]
      exact failStop_fatal _ _ _ _ _ h2 rfl
    | none =>
      simp only [finish, hc, hi]
      apply failStop_proceed
      apply noFailure_log _ _ _ _ (fun _ => rfl)
      exact noFailure_log _ _ _ h2 (fun _ => rfl)

theorem ingestStep_checked (op : Op) (h : op.ingestStep = true) : op.checked = true := by
  cases op <;> simp [Op.ingestStep, Op.checked] at h ⊢

theorem failStop_ingest (N : Nat) (env : Env) (l : List Decoded) (s : State)
    (hs : NoFailure Op.checked s.trace) : FailStop Op.ingestStep (ingest N env l s) :=
  failStop_andThen _ _ _ (failStop_beginTx env 0 s hs) (failStop_feed N env l)

theorem failStop_run (N : Nat) (env : Env) (l : List Decoded) (s : State)
    (hs : NoFailure Op.checked s.trace) : FailStop Op.checked (run N env l s) := by
  unfold run
  apply failStop_andThen
  · apply failStop_mono _ _ _ ingestStep_checked
    exact failStop_andThen _ _ _ (failStop_ingest N env l s hs) failStop_endOfStream
  · exact failStop_finish env

theorem inv_log_decode (N : Nat) (P : List Node) (s : State) (hI : Inv N P s) :
    Inv N P (s.log Op.decode none) := by
  obtain ⟨hc, ht, hs, hp, hcm, hpr, hex, hix⟩ := hI
  constructor
  · exact hc
  · exact ht
  · exact hs
  · exact hp
  · simpa [State.log, commitsOf, Event.commit?] using hcm
  · simpa [State.log, printsOf, Event.print?] using hpr
  · simpa [State.log, execsOf, Event.exec?] using hex
  · intro ev hev
    simp only [State.log, List.mem_append, List.mem_singleton] at hev
    rcases hev with hev | hev
    · exact hix ev hev
    · subst hev; simp

theorem points_cons_node (v : Node) (l : List Decoded) :
    points (Decoded.entity (Entity.node v) :: l) = v :: points l := rfl

theorem points_cons_way (w : Way) (l : List Decoded) :
    points (Decoded.entity (Entity.way w) :: l) = points l := rfl

theorem points_cons_relation (r : Relation) (l : List Decoded) :
    points (Decoded.entity (Entity.relation r) :: l) = points l := rfl

theorem points_cons_failure (e : String) (l : List Decoded) :
    points (Decoded.failure e :: l) = points l := rfl

theorem inv_step (N : Nat) (env : Env) (P : List Node) (s : State) (d : Decoded)
    (hI : Inv N P s) (h : (step N env s d).exit = Exit.success) :
    Inv N (P ++ points [d]) (step N env s d).st := by
  cases d with
  | failure e => simp [step, fatal] at h
  | entity v =>
    cases v with
    | node n => exact inv_onNode N env P _ n (inv_log_decode N P s hI) h
    | way w => simpa [points_cons_way] using inv_log_decode N P s hI
    | relation r => simpa [points_cons_relation] using inv_log_decode N P s hI

theorem inv_feed (N : Nat) (env : Env) (l : List Decoded) :
    ∀ (P : List Node) (s : State), Inv N P s → (feed N env l s).exit = Exit.success →
      Inv N (P ++ points l) (feed N env l s).st := by
  induction l with
  | nil => intro P s hI _; simpa [feed, proceed] using hI
  | cons d rest ih =>
    intro P s hI h
    unfold feed at h ⊢
    have h1 := success_of_andThen _ _ h
    rw [andThen_of_success _ _ h1] at h ⊢
    have h2 := ih _ _ (inv_step N env P s d hI h1) h
    have e : P ++ points [d] ++ points rest = P ++ points (d :: rest) := by
      rw [List.append_assoc, ← points_append]; rfl
    rw [e] at h2; exact h2

theorem inv_ingest (N : Nat) (env : Env) (l : List Decoded)
    (h : (ingest N env l (State.init [])).exit = Exit.success) :
    Inv N (points l) (ingest N env l (State.init [])).st := by
  unfold ingest at h ⊢
  have h1 := success_of_andThen _ _ h
  rw [andThen_of_success _ _ h1] at h ⊢
  simpa using inv_feed N env l [] _ (inv_beginTx N env h1) h

theorem inv_all_rows (N : Nat) (P : List Node) (s : State) (hI : Inv N P s) :
    s.store ++ s.pending = P.map rowOf := by
  rw [hI.store, hI.pending, ← List.map_append, List.take_append_drop]

theorem run_of_ingest_success (N : Nat) (env : Env) (l : List Decoded) (s : State)
    (h : (ingest N env l s).exit = Exit.success) :
    run N env l s = finish env ((ingest N env l s).st.log Op.decode none) := by
  unfold run
  rw [andThen_of_success _ _ h]
  rfl

theorem run_of_ingest_ne_success (N : Nat) (env : Env) (l : List Decoded) (s : State)
    (h : (ingest N env l s).exit ≠ Exit.success) :
    run N env l s = ingest N env l s := by
  unfold run
  rw [andThen_of_ne_success _ _ h, andThen_of_ne_success _ _ h]

theorem failStop_absurd (o : Outcome) (hfs : FailStop Op.ingestStep o)
    (hne : o.exit ≠ Exit.success) (hok : NoFailure Op.ingestStep o.st.trace) : False := by
  unfold FailStop at hfs
  split at hfs
  · rename_i h; exact hne h
  · obtain ⟨t, op, e, p, h1, h2, _, _⟩ := hfs
    have := hok ⟨op, some e⟩ (by rw [h1]; simp) h2
    simp at this
  · exact hfs

theorem commitBound_concat (N : Nat) (t : List Event) (ev : Event) :
    CommitBound N (t ++ [ev]) ↔
      CommitBound N t ∧ (∀ k rows, ev.op = Op.commit k rows → rows.length ≤ N) := by
  unfold CommitBound
  constructor
  · intro h
    exact ⟨fun x hx => h x (by simp [hx]), h ev (by simp)⟩
  · rintro ⟨h1, h2⟩ x hx
    rw [List.mem_append, List.mem_singleton] at hx
    rcases hx with hx | hx
    · exact h1 x hx
    · subst hx; exact h2

theorem succ_mod_of_ne (N n : Nat) (hN : 0 < N) (h : ¬ (n + 1) % N = 0) :
    (n + 1) % N = n % N + 1 := by
  have hlt : n % N < N := Nat.mod_lt n hN
  have hd : N * (n / N) + n % N = n := Nat.div_add_mod n N
  have e : n + 1 = n % N + 1 + N * (n / N) := by omega
  by_cases hc : n % N + 1 < N
  · rw [e, Nat.add_mul_mod_self_left, Nat.mod_eq_of_lt hc]
  · exfalso
    apply h
    have e2 : n % N + 1 = N := by omega
    rw [e, e2, Nat.add_mul_mod_self_left, Nat.mod_self]

theorem weakLoop_andThen (N : Nat) (o : Outcome) (f : State → Outcome) (ho : WeakLoop N o)
    (hf : ∀ s, Weak N s → s.pending.length = s.count % N → WeakLoop N (f s)) :
    WeakLoop N (o.andThen f) := by
  by_cases h : o.exit = Exit.success
  · rw [andThen_of_success o f h]
    exact hf _ ho.1 (ho.2 h)
  · rw [andThen_of_ne_success o f h]; exact ho

theorem weakLoop_beginTx (N : Nat) (env : Env) (k : Nat) (s : State) (hs : Weak N s)
    (hm : s.count % N = 0) : WeakLoop N (beginTx env k s) := by
  obtain ⟨h1, h2, h3⟩ := hs
  cases hb : env.beginErr k with
  | some e =>
    simp only [beginTx, hb, fatal, WeakLoop, Weak, State.log]
    refine ⟨⟨?_, h2, ?_⟩, fun h => by simp at h⟩
    · simpa [execsOf, Event.exec?] using h1
    · rw [commitBound_concat]; exact ⟨h3, fun k rows h => by simp at h⟩
  | none =>
    cases hpp : env.prepareErr k with
    | some e =>
      simp only [beginTx, hb, hpp, fatal, WeakLoop, Weak, State.log]
      refine ⟨⟨?_, by simp, ?_⟩, fun h => by simp at h⟩
      · simpa [execsOf, Event.exec?] using h1
      · rw [commitBound_concat, commitBound_concat]
        exact ⟨⟨h3, fun k rows h => by simp at h⟩, fun k rows h => by simp at h⟩
    | none =>
      simp only [beginTx, hb, hpp, proceed, WeakLoop, Weak, State.log]
      refine ⟨⟨?_, by simp, ?_⟩, fun _ => by simp [hm]⟩
      · simpa [execsOf, Event.exec?] using h1
      · rw [commitBound_concat, commitBound_concat]
        exact ⟨⟨h3, fun k rows h => by simp at h⟩, fun k rows h => by simp at h⟩

theorem weakLoop_rollover (N : Nat) (env : Env) (s : State) (hs : Weak N s)
    (hm : s.count % N = 0) : WeakLoop N (rollover env s) := by
  obtain ⟨h1, h2, h3⟩ := hs
  have hb : CommitBound N (s.trace ++ [⟨Op.closeStmt s.tx, env.closeErr s.tx⟩]
      ++ [⟨Op.commit s.tx s.pending, none⟩]) := by
    rw [commitBound_concat, commitBound_concat]
    refine ⟨⟨h3, fun k rows h => by simp at h⟩, fun k rows h => ?_⟩
    simp only [Op.commit.injEq] at h
    rw [← h.2]; exact h2
  cases hc : env.commitErr s.tx with
  | some e =>
    simp only [rollover, hc, fatal, WeakLoop, Weak, State.log]
    refine ⟨⟨?_, h2, ?_⟩, fun h => by simp at h⟩
    · simpa [execsOf, Event.exec?] using h1
    · rw [commitBound_concat, commitBound_concat]
      refine ⟨⟨h3, fun k rows h => by simp at h⟩, fun k rows h => ?_⟩
      simp only [Op.commit.injEq] at h
      rw [← h.2]; exact h2
  | none =>
    simp only [rollover, hc]
    apply weakLoop_beginTx
    · simp only [Weak, State.log]
      refine ⟨?_, by simp, ?_⟩
      · simpa [execsOf, Event.exec?] using h1
      · rw [commitBound_concat]; exact ⟨hb, fun k rows h => by simp at h⟩
    · exact hm

theorem weakLoop_onNode (N : Nat) (env : Env) (s : State) (v : Node) (hN : 0 < N)
    (hs : Weak N s) (hp : s.pending.length = s.count % N) : WeakLoop N (onNode N env s v) := by
  obtain ⟨h1, h2, h3⟩ := hs
  have hlt : s.count % N < N := Nat.mod_lt _ hN
  cases hx : env.execErr (s.store ++ s.pending) (rowOf v) with
  | some e =>
    simp only [onNode, hx, fatal, WeakLoop, Weak, State.log]
    refine ⟨⟨?_, h2, ?_⟩, fun h => by simp at h⟩
    · simpa [execsOf, Event.exec?] using h1
    · rw [commitBound_concat]; exact ⟨h3, fun k rows h => by simp at h⟩
  | none =>
    have hw : Weak N (State.mk (s.trace ++ [⟨Op.exec s.tx (rowOf v), none⟩]) s.store
        (s.pending ++ [rowOf v]) s.tx (s.count + 1)) := by
      refine ⟨?_, ?_, ?_⟩
      · simp [execsOf, Event.exec?]; simpa [execsOf] using h1
      · simp; omega
      · rw [commitBound_concat]; exact ⟨h3, fun k rows h => by simp at h⟩
    simp only [onNode, hx, State.log]
    split
    · rename_i hm
      exact weakLoop_rollover N env _ hw hm
    · rename_i hm
      refine ⟨hw, fun _ => ?_⟩
      simp only [proceed, List.length_append, List.length_singleton]
      rw [succ_mod_of_ne N _ hN hm, hp]

theorem weak_log_decode (N : Nat) (s : State) (err : Option String) (hs : Weak N s) :
    Weak N (s.log Op.decode err) := by
  obtain ⟨h1, h2, h3⟩ := hs
  refine ⟨?_, h2, ?_⟩
  · simpa [State.log, execsOf, Event.exec?] using h1
  · simp only [State.log]
    rw [commitBound_concat]; exact ⟨h3, fun k rows h => by simp at h⟩

theorem weakLoop_step (N : Nat) (env : Env) (s : State) (d : Decoded) (hN : 0 < N)
    (hs : Weak N s) (hp : s.pending.length = s.count % N) : WeakLoop N (step N env s d) := by
  cases d with
  | failure e => exact ⟨weak_log_decode N s _ hs, fun h => by simp [step, fatal] at h⟩
  | entity v =>
    cases v with
    | node n => exact weakLoop_onNode N env _ n hN (weak_log_decode N s _ hs) hp
    | way w => exact ⟨weak_log_decode N s _ hs, fun _ => hp⟩
    | relation r => exact ⟨weak_log_decode N s _ hs, fun _ => hp⟩

theorem weakLoop_feed (N : Nat) (env : Env) (hN : 0 < N) (l : List Decoded) :
    ∀ s : State, Weak N s → s.pending.length = s.count % N → WeakLoop N (feed N env l s) := by
  induction l with
  | nil => intro s hs hp; exact ⟨hs, fun _ => hp⟩
  | cons d rest ih =>
    intro s hs hp
    unfold feed
    exact weakLoop_andThen N _ _ (weakLoop_step N env s d hN hs hp) ih

theorem weakLoop_ingest (N : Nat) (env : Env) (hN : 0 < N) (l : List Decoded) :
    WeakLoop N (ingest N env l (State.init [])) := by
  unfold ingest
  apply weakLoop_andThen N _ _ _ (weakLoop_feed N env hN l)
  apply weakLoop_beginTx
  · refine ⟨rfl, by simp [State.init], fun ev h => by simp [State.init] at h⟩
  · rfl

theorem finish_success (env : Env) (s : State) (h : (finish env s).exit = Exit.success) :
    (finish env s).st =
      { trace := s.trace ++ [⟨Op.closeStmt s.tx, env.closeErr s.tx⟩,
          ⟨Op.commit s.tx s.pending, none⟩, ⟨Op.createIndex, none⟩,
          ⟨Op.print (summaryLine s.count env.elapsed), none⟩],
        store := s.store ++ s.pending, pending := [], tx := s.tx, count := s.count } := by
  cases hc : env.commitErr s.tx with
  | some e => simp [finish, hc, fatal] at h
  | none =>
    cases hi : env.indexErr with
    | some e => simp [finish, hc, hi, fatal] at h
    | none => simp [finish, hc, hi, proceed, State.log]

theorem run_success (N : Nat) (env : Env) (l : List Decoded)
    (h : (run N env l (State.init [])).exit = Exit.success) :
    ∃ s : State, Inv N (points l) s ∧ (ingest N env l (State.init [])).exit = Exit.success ∧
      (ingest N env l (State.init [])).st = s ∧
      (run N env l (State.init [])).st =
        { trace := s.trace ++ [⟨Op.decode, none⟩, ⟨Op.closeStmt s.tx, env.closeErr s.tx⟩,
            ⟨Op.commit s.tx s.pending, none⟩, ⟨Op.createIndex, none⟩,
            ⟨Op.print (summaryLine s.count env.elapsed), none⟩],
          store := s.store ++ s.pending, pending := [], tx := s.tx, count := s.count } := by
  have h1 : (ingest N env l (State.init [])).exit = Exit.success := by
    unfold run at h
    exact success_of_andThen _ _ (success_of_andThen _ _ h)
  refine ⟨_, inv_ingest N env l h1, h1, rfl, ?_⟩
  rw [run_of_ingest_success _ _ _ _ h1] at h ⊢
  rw [finish_success env _ h]
  simp [State.log]

theorem join_batches (N : Nat) (P : List Node) :
    ∀ k, ((List.range k).map (fun i => batch N P i)).flatten = (P.take (k * N)).map rowOf := by
  intro k
  induction k with
  | zero => simp
  | succ k ih =>
    rw [List.range_succ, List.map_append, List.flatten_append, ih]
    simp only [List.map_cons, List.map_nil, List.flatten_cons, List.flatten_nil, List.append_nil,
      batch]
    rw [← List.map_append, Nat.succ_mul, List.take_add]

theorem length_batch (N : Nat) (P : List Node) (i : Nat) (h : i < P.length / N) :
    (batch N P i).length = N := by
  unfold batch
  have h1 : (i + 1) * N ≤ P.length / N * N := Nat.mul_le_mul_right N h
  have h2 := Nat.div_mul_le_self P.length N
  have e1 : (i + 1) * N = i * N + N := by ring
  simp
  omega

theorem feed_success_of (N : Nat) (env : Env) (hsink : SinkOk env)
    (hexec : ∀ rows r, env.execErr rows r = none) (l : List Decoded) :
    NoDecodeFailure l → ∀ s : State, (feed N env l s).exit = Exit.success := by
  obtain ⟨hb, hp, hc, _⟩ := hsink
  induction l with
  | nil => intro _ s; rfl
  | cons d rest ih =>
    intro hl s
    have hrest : NoDecodeFailure rest := fun e he => hl e (List.mem_cons_of_mem _ he)
    have hstep : (step N env s d).exit = Exit.success := by
      cases d with
      | failure e => exact absurd (List.mem_cons_self _ _) (hl e)
      | entity v =>
        cases v with
        | node n =>
          simp only [step, onNode, hexec]
          split
          · simp [rollover, beginTx, hb, hp, hc, proceed]
          · rfl
        | way w => rfl
        | relation r => rfl
    unfold feed
    rw [andThen_of_success _ _ hstep]
    exact ih hrest _

theorem run_success_of (N : Nat) (env : Env) (hsink : SinkOk env)
    (hexec : ∀ rows r, env.execErr rows r = none) (l : List Decoded) (hl : NoDecodeFailure l) :
    (run N env l (State.init [])).exit = Exit.success := by
  have h1 : (ingest N env l (State.init [])).exit = Exit.success := by
    unfold ingest
    have hb : (beginTx env 0 (State.init [])).exit = Exit.success := by
      simp [beginTx, hsink.1, hsink.2.1, proceed]
    rw [andThen_of_success _ _ hb]
    exact feed_success_of N env hsink hexec l hl _
  rw [run_of_ingest_success _ _ _ _ h1]
  simp [finish, hsink.2.2.1, hsink.2.2.2, proceed]

theorem andThen_assoc (o : Outcome) (f g : State → Outcome) :
    (o.andThen f).andThen g = o.andThen (fun s => (f s).andThen g) := by
  by_cases h : o.exit = Exit.success
  · rw [andThen_of_success o f h, andThen_of_success o _ h]
  · rw [andThen_of_ne_success o f h, andThen_of_ne_success o g h, andThen_of_ne_success o _ h]

theorem feed_append (N : Nat) (env : Env) (a b : List Decoded) :
    ∀ s : State, feed N env (a ++ b) s = (feed N env a s).andThen (feed N env b) := by
  induction a with
  | nil => intro s; rfl
  | cons d rest ih =>
    intro s
    show (step N env s d).andThen (feed N env (rest ++ b))
      = ((step N env s d).andThen (feed N env rest)).andThen (feed N env b)
    rw [andThen_assoc]
    congr 1
    funext s1
    exact ih s1

theorem ingest_append (N : Nat) (env : Env) (a b : List Decoded) (s : State) :
    ingest N env (a ++ b) s = (ingest N env a s).andThen (feed N env b) := by
  unfold ingest
  rw [andThen_assoc]
  congr 1
  funext s1
  exact feed_append N env a b s1

theorem ingest_stops (N : Nat) (env : Env) (pre rest : List Decoded) (bad : Decoded)
    (hpre : (ingest N env pre (State.init [])).exit = Exit.success)
    (hbad : (step N env (ingest N env pre (State.init [])).st bad).exit ≠ Exit.success) :
    run N env (pre ++ bad :: rest) (State.init [])
      = step N env (ingest N env pre (State.init [])).st bad := by
  have e : ingest N env (pre ++ bad :: rest) (State.init [])
      = step N env (ingest N env pre (State.init [])).st bad := by
    rw [ingest_append, andThen_of_success _ _ hpre]
    show (step N env _ bad).andThen (feed N env rest) = _
    rw [andThen_of_ne_success _ _ hbad]
  rw [run_of_ingest_ne_success, e]
  rw [e]; exact hbad

@[simp]
theorem effects_append (a b : List Event) : effects (a ++ b) = effects a ++ effects b := by
  simp [effects]

theorem commitsOf_effects (t : List Event) : commitsOf (effects t) = commitsOf t := by
  induction t with
  | nil => rfl
  | cons ev rest ih =>
    by_cases h : ev = ⟨Op.decode, none⟩
    · subst h
      simpa [effects, commitsOf, Event.commit?] using ih
    · have e : effects (ev :: rest) = ev :: effects rest := by simp [effects, h]
      rw [e]
      simp only [commitsOf, List.filterMap_cons] at ih ⊢
      rw [ih]

theorem printsOf_effects (t : List Event) : printsOf (effects t) = printsOf t := by
  induction t with
  | nil => rfl
  | cons ev rest ih =>
    by_cases h : ev = ⟨Op.decode, none⟩
    · subst h
      simpa [effects, printsOf, Event.print?] using ih
    · have e : effects (ev :: rest) = ev :: effects rest := by simp [effects, h]
      rw [e]
      simp only [printsOf, List.filterMap_cons] at ih ⊢
      rw [ih]

theorem sameOutcome_andThen (o o' : Outcome) (f f' : State → Outcome) (ho : SameOutcome o o')
    (hf : ∀ s s', SameEffects s s' → SameOutcome (f s) (f' s')) :
    SameOutcome (o.andThen f) (o'.andThen f') := by
  by_cases h : o.exit = Exit.success
  · have h' : o'.exit = Exit.success := by rw [← ho.1]; exact h
    rw [andThen_of_success o f h, andThen_of_success o' f' h']
    exact hf _ _ ho.2
  · have h' : o'.exit ≠ Exit.success := by rw [← ho.1]; exact h
    rw [andThen_of_ne_success o f h, andThen_of_ne_success o' f' h']
    exact ho

theorem sameEffects_log (s s' : State) (op : Op) (err : Option String) (h : SameEffects s s') :
    SameEffects (s.log op err) (s'.log op err) := by
  obtain ⟨h1, h2, h3, h4, h5⟩ := h
  refine ⟨h1, h2, h3, h4, ?_⟩
  show effects (s.trace ++ [⟨op, err⟩]) = effects (s'.trace ++ [⟨op, err⟩])
  rw [effects_append, effects_append, h5]

theorem effects_decode : effects [⟨Op.decode, none⟩] = [] := by
  simp [effects]

theorem sameEffects_log_decode (s s' : State) (h : SameEffects s s') :
    SameEffects (s.log Op.decode none) s' := by
  obtain ⟨h1, h2, h3, h4, h5⟩ := h
  refine ⟨h1, h2, h3, h4, ?_⟩
  show effects (s.trace ++ [⟨Op.decode, none⟩]) = effects s'.trace
  rw [effects_append, effects_decode, List.append_nil, h5]

theorem sameEffects_concat (t t' : List Event) (ev : Event) (h : effects t = effects t') :
    effects (t ++ [ev]) = effects (t' ++ [ev]) := by
  rw [effects_append, effects_append, h]

theorem sameOutcome_beginTx (env : Env) (k : Nat) (s s' : State) (h : SameEffects s s') :
    SameOutcome (beginTx env k s) (beginTx env k s') := by
  obtain ⟨h1, h2, h3, h4, h5⟩ := h
  have e1 := sameEffects_concat _ _ ⟨Op.begin k, none⟩ h5
  cases hb : env.beginErr k with
  | some e =>
    simp only [beginTx, hb]
    exact ⟨rfl, h1, h2, h3, h4, sameEffects_concat _ _ _ h5⟩
  | none =>
    cases hp : env.prepareErr k with
    | some e =>
      simp only [beginTx, hb, hp]
      exact ⟨rfl, h1, rfl, rfl, h4, sameEffects_concat _ _ _ e1⟩
    | none =>
      simp only [beginTx, hb, hp]
      exact ⟨rfl, h1, rfl, rfl, h4, sameEffects_concat _ _ _ e1⟩

theorem sameOutcome_rollover (env : Env) (s s' : State) (h : SameEffects s s') :
    SameOutcome (rollover env s) (rollover env s') := by
  obtain ⟨h1, h2, h3, h4, h5⟩ := h
  have e1 := sameEffects_concat _ _ ⟨Op.closeStmt s.tx, env.closeErr s.tx⟩ h5
  cases hc : env.commitErr s.tx with
  | some e =>
    simp only [rollover, ← h3, ← h2, hc]
    exact ⟨rfl, h1, h2, h3, h4, sameEffects_concat _ _ _ e1⟩
  | none =>
    simp only [rollover, ← h3, ← h2, ← h1, ← h4, hc]
    apply sameOutcome_beginTx
    exact ⟨rfl, rfl, h3, h4,
      sameEffects_concat _ _ _ (sameEffects_concat _ _ ⟨Op.commit s.tx s.pending, none⟩ e1)⟩

theorem sameOutcome_onNode (N : Nat) (env : Env) (s s' : State) (v : Node)
    (h : SameEffects s s') : SameOutcome (onNode N env s v) (onNode N env s' v) := by
  obtain ⟨h1, h2, h3, h4, h5⟩ := h
  cases hx : env.execErr (s.store ++ s.pending) (rowOf v) with
  | some e =>
    simp only [onNode, ← h3, ← h2, ← h1, hx]
    exact ⟨rfl, h1, h2, h3, h4, sameEffects_concat _ _ _ h5⟩
  | none =>
    have hs : SameEffects
        (State.mk (s.trace ++ [⟨Op.exec s.tx (rowOf v), none⟩]) s.store
          (s.pending ++ [rowOf v]) s.tx (s.count + 1))
        (State.mk (s'.trace ++ [⟨Op.exec s.tx (rowOf v), none⟩]) s.store
          (s.pending ++ [rowOf v]) s.tx (s.count + 1)) :=
      ⟨rfl, rfl, rfl, rfl, sameEffects_concat _ _ _ h5⟩
    simp only [onNode, ← h3, ← h2, ← h1, ← h4, hx, State.log]
    split
    · exact sameOutcome_rollover env _ _ hs
    · exact ⟨rfl, hs⟩

theorem sameOutcome_step (N : Nat) (env : Env) (s s' : State) (d : Decoded)
    (h : SameEffects s s') : SameOutcome (step N env s d) (step N env s' d) := by
  cases d with
  | failure e => exact ⟨rfl, sameEffects_log _ _ _ _ h⟩
  | entity v =>
    cases v with
    | node n => exact sameOutcome_onNode N env _ _ n (sameEffects_log _ _ _ _ h)
    | way w => exact ⟨rfl, sameEffects_log _ _ _ _ h⟩
    | relation r => exact ⟨rfl, sameEffects_log _ _ _ _ h⟩

theorem sameOutcome_feed (N : Nat) (env : Env) (l : List Decoded) :
    ∀ s s' : State, SameEffects s s' →
      SameOutcome (feed N env l s) (feed N env (dropOthers l) s') := by
  induction l with
  | nil => intro s s' h; exact ⟨rfl, h⟩
  | cons d rest ih =>
    intro s s' h
    by_cases hd : d.isOther = true
    · have e1 : dropOthers (d :: rest) = dropOthers rest := by simp [dropOthers, hd]
      have e2 : step N env s d = proceed (s.log Op.decode none) := by
        cases d with
        | failure e => simp [Decoded.isOther] at hd
        | entity v =>
          cases v with
          | node n => simp [Decoded.isOther] at hd
          | way w => rfl
          | relation r => rfl
      rw [e1]
      show SameOutcome ((step N env s d).andThen (feed N env rest)) _
      rw [e2, andThen_of_success _ _ rfl]
      exact ih _ _ (sameEffects_log_decode _ _ h)
    · have e1 : dropOthers (d :: rest) = d :: dropOthers rest := by simp [dropOthers, hd]
      rw [e1]
      exact sameOutcome_andThen _ _ _ _ (sameOutcome_step N env s s' d h) ih

theorem sameOutcome_finish (env : Env) (s s' : State) (h : SameEffects s s') :
    SameOutcome (finish env s) (finish env s') := by
  obtain ⟨h1, h2, h3, h4, h5⟩ := h
  have e1 := sameEffects_concat _ _ ⟨Op.closeStmt s.tx, env.closeErr s.tx⟩ h5
  have e2 := sameEffects_concat _ _ ⟨Op.commit s.tx s.pending, none⟩ e1
  cases hc : env.commitErr s.tx with
  | some e =>
    simp only [finish, ← h3, ← h2, hc]
    exact ⟨rfl, h1, h2, h3, h4, sameEffects_concat _ _ _ e1⟩
  | none =>
    cases hi : env.indexErr with
    | some e =>
      simp only [finish, ← h3, ← h2, ← h1, ← h4, hc, hi]
      exact ⟨rfl, rfl, rfl, h3, h4, sameEffects_concat _ _ _ e2⟩
    | none =>
      simp only [finish, ← h3, ← h2, ← h1, ← h4, hc, hi]
      exact ⟨rfl, rfl, rfl, h3, h4,
        sameEffects_concat _ _ _ (sameEffects_concat _ _ ⟨Op.createIndex, none⟩ e2)⟩

theorem sameOutcome_run (N : Nat) (env : Env) (l : List Decoded) :
    SameOutcome (run N env l (State.init [])) (run N env (dropOthers l) (State.init [])) := by
  unfold run ingest
  apply sameOutcome_andThen _ _ _ _ _ (sameOutcome_finish env)
  apply sameOutcome_andThen
  · apply sameOutcome_andThen _ _ _ _ _ (sameOutcome_feed N env l)
    exact sameOutcome_beginTx env 0 _ _ ⟨rfl, rfl, rfl, rfl, rfl⟩
  · intro s s' h
    exact ⟨rfl, sameEffects_log _ _ _ _ h⟩

theorem count_beginTx (env : Env) (k : Nat) (s : State) :
    (beginTx env k s).st.count = s.count := by
  cases hb : env.beginErr k with
  | some e => simp only [beginTx, hb]; rfl
  | none =>
    cases hp : env.prepareErr k with
    | some e => simp only [beginTx, hb, hp]; rfl
    | none => simp only [beginTx, hb, hp]; rfl

theorem count_rollover (env : Env) (s : State) : (rollover env s).st.count = s.count := by
  cases hc : env.commitErr s.tx with
  | some e => simp only [rollover, hc]; rfl
  | none =>
    simp only [rollover, hc]
    rw [count_beginTx]; rfl

theorem count_onNode (N : Nat) (env : Env) (s : State) (v : Node) :
    (onNode N env s v).st.count
      = s.count + (if env.execErr (s.store ++ s.pending) (rowOf v) = none then 1 else 0) := by
  cases hx : env.execErr (s.store ++ s.pending) (rowOf v) with
  | some e => simp only [onNode, hx]; rfl
  | none =>
    simp only [onNode, hx]
    split
    · rw [count_rollover]; rfl
    · rfl

theorem count_le_step (N : Nat) (env : Env) (s : State) (d : Decoded) :
    s.count ≤ (step N env s d).st.count := by
  cases d with
  | failure e => exact Nat.le_refl _
  | entity v =>
    cases v with
    | node n =>
      show s.count ≤ (onNode N env (s.log Op.decode none) n).st.count
      rw [count_onNode]
      exact Nat.le_add_right _ _
    | way w => exact Nat.le_refl _
    | relation r => exact Nat.le_refl _

theorem count_le_feed (N : Nat) (env : Env) (l : List Decoded) :
    ∀ s : State, s.count ≤ (feed N env l s).st.count := by
  induction l with
  | nil => intro s; exact Nat.le_refl _
  | cons d rest ih =>
    intro s
    unfold feed
    by_cases h : (step N env s d).exit = Exit.success
    · rw [andThen_of_success _ _ h]
      exact Nat.le_trans (count_le_step N env s d) (ih _)
    · rw [andThen_of_ne_success _ _ h]
      exact count_le_step N env s d

theorem onNode_success_of (N : Nat) (env : Env) (hsink : SinkOk env) (s : State) (v : Node)
    (hx : env.execErr (s.store ++ s.pending) (rowOf v) = none) :
    (onNode N env s v).exit = Exit.success := by
  obtain ⟨hb, hp, hc, _⟩ := hsink
  simp only [onNode, hx]
  split
  · simp [rollover, beginTx, hb, hp, hc, proceed]
  · rfl

theorem map_id_rowOf (P : List Node) : (P.map rowOf).map Row.id = P.map Node.id := by
  rw [List.map_map]; rfl

theorem noDecodeFailure_append (a b : List Decoded) :
    NoDecodeFailure (a ++ b) ↔ NoDecodeFailure a ∧ NoDecodeFailure b := by
  unfold NoDecodeFailure
  constructor
  · intro h
    exact ⟨fun e he => h e (List.mem_append_left _ he), fun e he => h e (List.mem_append_right _ he)⟩
  · rintro ⟨h1, h2⟩ e he
    rcases List.mem_append.1 he with he | he
    · exact h1 e he
    · exact h2 e he

theorem ingest_success_of_nodup (N : Nat) (env : Env) (hsink : SinkOk env)
    (hkey : ∀ rows r, env.execErr rows r = none ↔ r.id ∉ rows.map Row.id) (l : List Decoded) :
    NoDecodeFailure l → ((points l).map Node.id).Nodup →
      (ingest N env l (State.init [])).exit = Exit.success := by
  induction l using List.reverseRecOn with
  | nil =>
    intro _ _
    simp [ingest, beginTx, hsink.1, hsink.2.1, proceed, Outcome.andThen, feed]
  | append_singleton front d ih =>
    intro hl hnd
    rw [noDecodeFailure_append] at hl
    rw [points_append, List.map_append, List.nodup_append] at hnd
    have h1 := ih hl.1 hnd.1
    have hI := inv_ingest N env front h1
    have hall := inv_all_rows N _ _ hI
    rw [ingest_append, andThen_of_success _ _ h1]
    show ((step N env _ d).andThen (feed N env [])).exit = Exit.success
    have hstep : (step N env (ingest N env front (State.init [])).st d).exit = Exit.success := by
      cases d with
      | failure e => exact absurd (List.mem_singleton_self _) (hl.2 e)
      | entity v =>
        cases v with
        | node n =>
          apply onNode_success_of N env hsink
          show env.execErr ((ingest N env front (State.init [])).st.store
            ++ (ingest N env front (State.init [])).st.pending) (rowOf n) = none
          rw [hall, hkey, map_id_rowOf]
          intro hmem
          exact hnd.2.2 hmem (by simp [points, Decoded.node?, rowOf])
        | way w => rfl
        | relation r => rfl
    rw [andThen_of_success _ _ hstep]
    rfl

theorem first_duplicate (l : List Decoded) :
    ¬ ((points l).map Node.id).Nodup →
      ∃ (pre : List Decoded) (v : Node) (rest : List Decoded),
        l = pre ++ Decoded.entity (Entity.node v) :: rest ∧
        ((points pre).map Node.id).Nodup ∧ v.id ∈ (points pre).map Node.id := by
  induction l using List.reverseRecOn with
  | nil => intro h; simp at h
  | append_singleton front d ih =>
    intro h
    by_cases hf : ((points front).map Node.id).Nodup
    · cases d with
      | failure e => exact absurd (by simpa [points, Decoded.node?] using hf) h
      | entity v =>
        cases v with
        | node n =>
          refine ⟨front, n, [], rfl, hf, ?_⟩
          by_contra hmem
          apply h
          rw [points_append, List.map_append, List.nodup_append]
          refine ⟨hf, by simp [points, Decoded.node?], ?_⟩
          intro a ha hb
          simp [points, Decoded.node?] at hb
          subst hb
          exact hmem ha
        | way w => exact absurd (by simpa [points, Decoded.node?] using hf) h
        | relation r => exact absurd (by simpa [points, Decoded.node?] using hf) h
    · obtain ⟨pre, v, rest, e, h1, h2⟩ := ih hf
      exact ⟨pre, v, rest ++ [d], by rw [e]; simp, h1, h2⟩

/-- The outcome of a run whose first failure is a decode error or a failed
insert, after the records `pre`. -/
theorem abort_at_record (N : Nat) (env : Env) (pre rest : List Decoded)
    (bad : Decoded) (err : String) (_hN : 1 ≤ N)
    (hpre : (ingest N env pre (State.init [])).exit = Exit.success)
    (hbad : bad = Decoded.failure err ∨
      ∃ v, bad = Decoded.entity (Entity.node v) ∧
        env.execErr ((points pre).map rowOf) (rowOf v) = some err) :
    ((run N env (pre ++ bad :: rest) (State.init [])).exit = Exit.fatal ("Error decoding: " ++ err) ∧
        bad = Decoded.failure err ∧
        (run N env (pre ++ bad :: rest) (State.init [])).st.trace
          = (ingest N env pre (State.init [])).st.trace ++ [⟨Op.decode, some err⟩] ∨
      ∃ v, bad = Decoded.entity (Entity.node v) ∧
        (run N env (pre ++ bad :: rest) (State.init [])).exit
          = Exit.fatal ("Error inserting node " ++ toString v.id ++ ": " ++ err) ∧
        (run N env (pre ++ bad :: rest) (State.init [])).st.trace
          = (ingest N env pre (State.init [])).st.trace
            ++ [⟨Op.decode, none⟩, ⟨Op.exec ((points pre).length / N) (rowOf v), some err⟩]) ∧
    (run N env (pre ++ bad :: rest) (State.init [])).st.count = (points pre).length ∧
    (run N env (pre ++ bad :: rest) (State.init [])).st.store
      = ((points pre).take ((points pre).length / N * N)).map rowOf ∧
    (run N env (pre ++ bad :: rest) (State.init [])).st.pending
      = ((points pre).drop ((points pre).length / N * N)).map rowOf ∧
    commitsOf (run N env (pre ++ bad :: rest) (State.init [])).st.trace
      = (List.range ((points pre).length / N)).map (fun i => (i, batch N (points pre) i)) ∧
    (∀ ev ∈ (run N env (pre ++ bad :: rest) (State.init [])).st.trace,
      ev.op ≠ Op.createIndex) := by
  have hI := inv_ingest N env pre hpre
  have hall := inv_all_rows N _ _ hI
  rcases hbad with hb | ⟨v, hb, hx⟩
  · subst hb
    rw [ingest_stops N env pre rest _ hpre (by simp [step, fatal])]
    refine ⟨Or.inl ⟨rfl, rfl, rfl⟩, hI.count, hI.store, hI.pending, ?_, ?_⟩
    · simpa [step, fatal, State.log, commitsOf, Event.commit?] using hI.commits
    · intro ev hev
      simp only [step, fatal, State.log, List.mem_append, List.mem_singleton] at hev
      rcases hev with hev | hev
      · exact hI.index ev hev
      · subst hev; simp
  · subst hb
    rw [← hall] at hx
    have hstep : step N env (ingest N env pre (State.init [])).st (Decoded.entity (Entity.node v))
        = fatal (((ingest N env pre (State.init [])).st.log Op.decode none).log
            (Op.exec (ingest N env pre (State.init [])).st.tx (rowOf v)) (some err))
            ("Error inserting node " ++ toString v.id ++ ": " ++ err) := by
      simp only [step, onNode, State.log, hx]
    rw [ingest_stops N env pre rest _ hpre (by rw [hstep]; simp [fatal]), hstep]
    refine ⟨Or.inr ⟨v, rfl, rfl, ?_⟩, hI.count, hI.store, hI.pending, ?_, ?_⟩
    · simp [fatal, State.log, hI.tx]
    · simpa [fatal, State.log, commitsOf, Event.commit?] using hI.commits
    · intro ev hev
      simp only [fatal, State.log, List.mem_append, List.mem_singleton] at hev
      rcases hev with (hev | hev) | hev
      · exact hI.index ev hev
      · subst hev; simp
      · subst hev; simp

theorem scrub_concat (t t' : List Event) (ev ev' : Event) (h : scrub t = scrub t')
    (hev : scrub [ev] = scrub [ev']) : scrub (t ++ [ev]) = scrub (t' ++ [ev']) := by
  unfold scrub at h hev ⊢
  rw [List.map_append, List.map_append, h, hev]

theorem scrub_closeStmt (k : Nat) (e e' : Option String) :
    scrub [⟨Op.closeStmt k, e⟩] = scrub [⟨Op.closeStmt k, e'⟩] := by
  simp [scrub, Op.checked]

theorem scrub_removeDb (e e' : Option String) :
    scrub [⟨Op.removeDb, e⟩] = scrub [⟨Op.removeDb, e'⟩] := by
  simp [scrub, Op.checked]

theorem commitsOf_scrub (t : List Event) : commitsOf (scrub t) = commitsOf t := by
  induction t with
  | nil => rfl
  | cons ev rest ih =>
    have e : scrub (ev :: rest) = scrub [ev] ++ scrub rest := by simp [scrub]
    have e2 : commitsOf (ev :: rest) = commitsOf [ev] ++ commitsOf rest := by
      rw [← commitsOf_append]; rfl
    rw [e, commitsOf_append, ih, e2]
    congr 1
    obtain ⟨op, err⟩ := ev
    cases op <;> simp [scrub, Op.checked, commitsOf, Event.commit?]

theorem printsOf_scrub (t : List Event) : printsOf (scrub t) = printsOf t := by
  induction t with
  | nil => rfl
  | cons ev rest ih =>
    have e : scrub (ev :: rest) = scrub [ev] ++ scrub rest := by simp [scrub]
    have e2 : printsOf (ev :: rest) = printsOf [ev] ++ printsOf rest := by
      rw [← printsOf_append]; rfl
    rw [e, printsOf_append, ih, e2]
    congr 1
    obtain ⟨op, err⟩ := ev
    cases op <;> simp [scrub, Op.checked, printsOf, Event.print?]

theorem alikeOutcome_andThen (o o' : Outcome) (f f' : State → Outcome) (ho : AlikeOutcome o o')
    (hf : ∀ s s', Alike s s' → AlikeOutcome (f s) (f' s')) :
    AlikeOutcome (o.andThen f) (o'.andThen f') := by
  by_cases h : o.exit = Exit.success
  · have h' : o'.exit = Exit.success := by rw [← ho.1]; exact h
    rw [andThen_of_success o f h, andThen_of_success o' f' h']
    exact hf _ _ ho.2
  · have h' : o'.exit ≠ Exit.success := by rw [← ho.1]; exact h
    rw [andThen_of_ne_success o f h, andThen_of_ne_success o' f' h']
    exact ho

theorem alike_log (s s' : State) (op : Op) (err : Option String) (h : Alike s s') :
    Alike (s.log op err) (s'.log op err) := by
  obtain ⟨h1, h2, h3, h4, h5⟩ := h
  exact ⟨h1, h2, h3, h4, scrub_concat _ _ _ _ h5 rfl⟩

theorem alikeOutcome_beginTx (env : Env) (r : Option String) (c : Nat → Option String) (k : Nat)
    (s s' : State) (h : Alike s s') :
    AlikeOutcome (beginTx env k s) (beginTx (env.withIgnored r c) k s') := by
  obtain ⟨h1, h2, h3, h4, h5⟩ := h
  have e1 := scrub_concat _ _ ⟨Op.begin k, none⟩ ⟨Op.begin k, none⟩ h5 rfl
  cases hb : env.beginErr k with
  | some e =>
    simp only [beginTx, Env.withIgnored, hb]
    exact ⟨rfl, h1, h2, h3, h4, scrub_concat _ _ _ _ h5 rfl⟩
  | none =>
    cases hp : env.prepareErr k with
    | some e =>
      simp only [beginTx, Env.withIgnored, hb, hp]
      exact ⟨rfl, h1, rfl, rfl, h4, scrub_concat _ _ _ _ e1 rfl⟩
    | none =>
      simp only [beginTx, Env.withIgnored, hb, hp]
      exact ⟨rfl, h1, rfl, rfl, h4, scrub_concat _ _ _ _ e1 rfl⟩

theorem alikeOutcome_rollover (env : Env) (r : Option String) (c : Nat → Option String)
    (s s' : State) (h : Alike s s') :
    AlikeOutcome (rollover env s) (rollover (env.withIgnored r c) s') := by
  obtain ⟨h1, h2, h3, h4, h5⟩ := h
  have e1 := scrub_concat _ _ ⟨Op.closeStmt s.tx, env.closeErr s.tx⟩ ⟨Op.closeStmt s.tx, c s.tx⟩ h5
    (scrub_closeStmt _ _ _)
  cases hc : env.commitErr s.tx with
  | some e =>
    simp only [rollover, Env.withIgnored, ← h3, ← h2, hc]
    exact ⟨rfl, h1, h2, h3, h4, scrub_concat _ _ _ _ e1 rfl⟩
  | none =>
    simp only [rollover, ← h3, ← h2, ← h1, ← h4, hc]
    have hc' : (env.withIgnored r c).commitErr s.tx = none := hc
    simp only [hc']
    apply alikeOutcome_beginTx
    exact ⟨rfl, rfl, h3, h4,
      scrub_concat _ _ _ _
        (scrub_concat _ _ ⟨Op.commit s.tx s.pending, none⟩ ⟨Op.commit s.tx s.pending, none⟩ e1 rfl)
        rfl⟩

theorem alikeOutcome_onNode (N : Nat) (env : Env) (r : Option String) (c : Nat → Option String)
    (s s' : State) (v : Node) (h : Alike s s') :
    AlikeOutcome (onNode N env s v) (onNode N (env.withIgnored r c) s' v) := by
  obtain ⟨h1, h2, h3, h4, h5⟩ := h
  have hx' : (env.withIgnored r c).execErr = env.execErr := rfl
  cases hx : env.execErr (s.store ++ s.pending) (rowOf v) with
  | some e =>
    simp only [onNode, hx', ← h3, ← h2, ← h1, hx]
    exact ⟨rfl, h1, h2, h3, h4, scrub_concat _ _ _ _ h5 rfl⟩
  | none =>
    have hs : Alike
        (State.mk (s.trace ++ [⟨Op.exec s.tx (rowOf v), none⟩]) s.store
          (s.pending ++ [rowOf v]) s.tx (s.count + 1))
        (State.mk (s'.trace ++ [⟨Op.exec s.tx (rowOf v), none⟩]) s.store
          (s.pending ++ [rowOf v]) s.tx (s.count + 1)) :=
      ⟨rfl, rfl, rfl, rfl, scrub_concat _ _ _ _ h5 rfl⟩
    simp only [onNode, hx', ← h3, ← h2, ← h1, ← h4, hx, State.log]
    split
    · exact alikeOutcome_rollover env r c _ _ hs
    · exact ⟨rfl, hs⟩

theorem alikeOutcome_step (N : Nat) (env : Env) (r : Option String) (c : Nat → Option String)
    (s s' : State) (d : Decoded) (h : Alike s s') :
    AlikeOutcome (step N env s d) (step N (env.withIgnored r c) s' d) := by
  cases d with
  | failure e => exact ⟨rfl, alike_log _ _ _ _ h⟩
  | entity v =>
    cases v with
    | node n => exact alikeOutcome_onNode N env r c _ _ n (alike_log _ _ _ _ h)
    | way w => exact ⟨rfl, alike_log _ _ _ _ h⟩
    | relation r => exact ⟨rfl, alike_log _ _ _ _ h⟩

theorem alikeOutcome_feed (N : Nat) (env : Env) (r : Option String) (c : Nat → Option String)
    (l : List Decoded) :
    ∀ s s' : State, Alike s s' →
      AlikeOutcome (feed N env l s) (feed N (env.withIgnored r c) l s') := by
  induction l with
  | nil => intro s s' h; exact ⟨rfl, h⟩
  | cons d rest ih =>
    intro s s' h
    exact alikeOutcome_andThen _ _ _ _ (alikeOutcome_step N env r c s s' d h) ih

theorem alikeOutcome_finish (env : Env) (r : Option String) (c : Nat → Option String)
    (s s' : State) (h : Alike s s') :
    AlikeOutcome (finish env s) (finish (env.withIgnored r c) s') := by
  obtain ⟨h1, h2, h3, h4, h5⟩ := h
  have e1 := scrub_concat _ _ ⟨Op.closeStmt s.tx, env.closeErr s.tx⟩ ⟨Op.closeStmt s.tx, c s.tx⟩ h5
    (scrub_closeStmt _ _ _)
  have e2 := scrub_concat _ _ ⟨Op.commit s.tx s.pending, none⟩ ⟨Op.commit s.tx s.pending, none⟩
    e1 rfl
  cases hc : env.commitErr s.tx with
  | some e =>
    simp only [finish, Env.withIgnored, ← h3, ← h2, hc]
    exact ⟨rfl, h1, h2, h3, h4, scrub_concat _ _ _ _ e1 rfl⟩
  | none =>
    cases hi : env.indexErr with
    | some e =>
      simp only [finish, Env.withIgnored, ← h3, ← h2, ← h1, ← h4, hc, hi]
      exact ⟨rfl, rfl, rfl, h3, h4, scrub_concat _ _ _ _ e2 rfl⟩
    | none =>
      simp only [finish, Env.withIgnored, ← h3, ← h2, ← h1, ← h4, hc, hi]
      exact ⟨rfl, rfl, rfl, h3, h4,
        scrub_concat _ _ _ _
          (scrub_concat _ _ ⟨Op.createIndex, none⟩ ⟨Op.createIndex, none⟩ e2 rfl) rfl⟩

theorem alikeOutcome_run (N : Nat) (env : Env) (r : Option String) (c : Nat → Option String)
    (l : List Decoded) (s s' : State) (h : Alike s s') :
    AlikeOutcome (run N env l s) (run N (env.withIgnored r c) l s') := by
  unfold run ingest
  apply alikeOutcome_andThen _ _ _ _ _ (alikeOutcome_finish env r c)
  apply alikeOutcome_andThen
  · apply alikeOutcome_andThen _ _ _ _ _ (alikeOutcome_feed N env r c l)
    exact alikeOutcome_beginTx env r c 0 _ _ h
  · intro s s' h
    exact ⟨rfl, alike_log _ _ _ _ h⟩

theorem alikeOutcome_main (env : Env) (r : Option String) (c : Nat → Option String) :
    AlikeOutcome (main env) (main (env.withIgnored r c)) := by
  have ha : (env.withIgnored r c).args = env.args := rfl
  have hs : (env.withIgnored r c).stream = env.stream := rfl
  have hp : (env.withIgnored r c).prog = env.prog := rfl
  have h1 : (env.withIgnored r c).openInputErr = env.openInputErr := rfl
  have h2 : (env.withIgnored r c).startErr = env.startErr := rfl
  have h3 : (env.withIgnored r c).openDbErr = env.openDbErr := rfl
  have h4 : (env.withIgnored r c).createTableErr = env.createTableErr := rfl
  have h5 : (env.withIgnored r c).removeErr = r := rfl
  unfold main
  rw [ha, hs, hp, h1, h2, h3, h4, h5]
  by_cases hlen : env.args.length < 2
  · simp only [hlen, if_true]
    exact ⟨rfl, rfl, rfl, rfl, rfl, rfl⟩
  · simp only [hlen, if_false]
    cases env.openInputErr with
    | some e => exact ⟨rfl, rfl, rfl, rfl, rfl, rfl⟩
    | none =>
      cases env.startErr with
      | some e => exact ⟨rfl, rfl, rfl, rfl, rfl, rfl⟩
      | none =>
        have hrm : scrub ((((State.init []).log Op.openInput none).log Op.startDecoder none).log
              Op.removeDb env.removeErr).trace
            = scrub ((((State.init []).log Op.openInput none).log Op.startDecoder none).log
              Op.removeDb r).trace :=
          scrub_concat _ _ _ _ rfl (scrub_removeDb _ _)
        cases env.openDbErr with
        | some e => exact ⟨rfl, rfl, rfl, rfl, rfl, scrub_concat _ _ _ _ hrm rfl⟩
        | none =>
          have hod := scrub_concat _ _ ⟨Op.openDb, none⟩ ⟨Op.openDb, none⟩ hrm rfl
          cases env.createTableErr with
          | some e => exact ⟨rfl, rfl, rfl, rfl, rfl, scrub_concat _ _ _ _ hod rfl⟩
          | none =>
            apply alikeOutcome_run
            exact ⟨rfl, rfl, rfl, rfl, scrub_concat _ _ _ _ hod rfl⟩

theorem main_cases (env : Env) :
    ((main env).exit = Exit.usage ∧ NoFailure Op.checked (main env).st.trace) ∨
      FailStop Op.checked (main env) := by
  have h0 : NoFailure Op.checked (State.init []).trace := noFailure_nil _
  unfold main
  by_cases hlen : env.args.length < 2
  · left
    simp only [hlen, if_true]
    exact ⟨trivial, noFailure_log _ _ _ h0 (fun _ => rfl)⟩
  · right
    simp only [hlen, if_false]
    cases env.openInputErr with
    | some e => exact failStop_fatal _ _ _ _ _ h0 rfl
    | none =>
      have h1 := noFailure_log _ Op.openInput none h0 (fun _ => rfl)
      cases env.startErr with
      | some e => exact failStop_fatal _ _ _ _ _ h1 rfl
      | none =>
        have h2 := noFailure_log _ Op.startDecoder none h1 (fun _ => rfl)
        have h3 := noFailure_log _ Op.removeDb env.removeErr h2
          (fun h => by simp [Op.checked] at h)
        cases env.openDbErr with
        | some e => exact failStop_fatal _ _ _ _ _ h3 rfl
        | none =>
          have h4 := noFailure_log _ Op.openDb none h3 (fun _ => rfl)
          cases env.createTableErr with
          | some e => exact failStop_fatal _ _ _ _ _ h4 rfl
          | none =>
            exact failStop_run batchSize env env.stream _
              (noFailure_log _ Op.createTable none h4 (fun _ => rfl))

theorem last_of_noFailure (t t' t0 : List Event) (ev ev0 : Event)
    (h : t ++ ev :: t' = t0 ++ [ev0]) (hev : ev ∉ t0) : t' = [] ∧ ev = ev0 := by
  rcases List.eq_nil_or_concat t' with h' | ⟨tl, z, h'⟩
  · subst h'
    have := List.append_inj' h rfl
    exact ⟨rfl, by simpa using this.2⟩
  · exfalso
    subst h'
    rw [List.concat_eq_append, ← List.cons_append, ← List.append_assoc] at h
    have := (List.append_inj' h rfl).1
    apply hev
    rw [← this]; simp

theorem shift_log (t : List Event) (s : State) (op : Op) (err : Option String) :
    (s.shift t).log op err = (s.log op err).shift t := by
  simp [State.shift, State.log]

theorem shift_andThen (t : List Event) (o : Outcome) (f g : State → Outcome)
    (h : ∀ s, f (s.shift t) = (g s).shift t) :
    (o.shift t).andThen f = (o.andThen g).shift t := by
  by_cases he : o.exit = Exit.success
  · rw [andThen_of_success o g he, andThen_of_success (o.shift t) f he]
    exact h o.st
  · rw [andThen_of_ne_success o g he, andThen_of_ne_success (o.shift t) f he]

theorem shift_beginTx (env : Env) (k : Nat) (t : List Event) (s : State) :
    beginTx env k (s.shift t) = (beginTx env k s).shift t := by
  cases hb : env.beginErr k with
  | some e => simp [beginTx, hb, fatal, Outcome.shift, State.shift, State.log]
  | none =>
    cases hp : env.prepareErr k with
    | some e => simp [beginTx, hb, hp, fatal, Outcome.shift, State.shift, State.log]
    | none => simp [beginTx, hb, hp, proceed, Outcome.shift, State.shift, State.log]

theorem shift_rollover (env : Env) (t : List Event) (s : State) :
    rollover env (s.shift t) = (rollover env s).shift t := by
  have ht : (s.shift t).tx = s.tx := rfl
  cases hc : env.commitErr s.tx with
  | some e => simp [rollover, ht, hc, fatal, Outcome.shift, State.shift, State.log]
  | none =>
    simp only [rollover, ht, hc]
    rw [← shift_beginTx]
    simp [State.shift, State.log]

theorem shift_onNode (N : Nat) (env : Env) (t : List Event) (s : State) (v : Node) :
    onNode N env (s.shift t) v = (onNode N env s v).shift t := by
  have h1 : (s.shift t).store = s.store := rfl
  have h2 : (s.shift t).pending = s.pending := rfl
  cases hx : env.execErr (s.store ++ s.pending) (rowOf v) with
  | some e => simp [onNode, h1, h2, hx, fatal, Outcome.shift, State.shift, State.log]
  | none =>
    simp only [onNode, h1, h2, hx]
    by_cases hm : (s.count + 1) % N = 0
    · have hm' : ((s.shift t).count + 1) % N = 0 := hm
      simp only [hm, hm', if_true]
      rw [← shift_rollover]
      simp [State.shift, State.log]
    · have hm' : ¬ ((s.shift t).count + 1) % N = 0 := hm
      simp only [hm, hm', if_false]
      simp [proceed, Outcome.shift, State.shift, State.log]

theorem shift_step (N : Nat) (env : Env) (t : List Event) (s : State) (d : Decoded) :
    step N env (s.shift t) d = (step N env s d).shift t := by
  cases d with
  | failure e => simp [step, fatal, Outcome.shift, State.shift, State.log]
  | entity v =>
    cases v with
    | node n =>
      show onNode N env ((s.shift t).log Op.decode none) n = _
      rw [shift_log, shift_onNode]; rfl
    | way w => simp [step, proceed, Outcome.shift, State.shift, State.log]
    | relation r => simp [step, proceed, Outcome.shift, State.shift, State.log]

theorem shift_feed (N : Nat) (env : Env) (t : List Event) (l : List Decoded) :
    ∀ s : State, feed N env l (s.shift t) = (feed N env l s).shift t := by
  induction l with
  | nil => intro s; rfl
  | cons d rest ih =>
    intro s
    show (step N env (s.shift t) d).andThen (feed N env rest) = _
    rw [shift_step]
    exact shift_andThen t _ _ _ ih

theorem shift_finish (env : Env) (t : List Event) (s : State) :
    finish env (s.shift t) = (finish env s).shift t := by
  have ht : (s.shift t).tx = s.tx := rfl
  cases hc : env.commitErr s.tx with
  | some e => simp [finish, ht, hc, fatal, Outcome.shift, State.shift, State.log]
  | none =>
    cases hi : env.indexErr with
    | some e => simp [finish, ht, hc, hi, fatal, Outcome.shift, State.shift, State.log]
    | none => simp [finish, ht, hc, hi, proceed, Outcome.shift, State.shift, State.log]

theorem shift_run (N : Nat) (env : Env) (t : List Event) (l : List Decoded) (s : State) :
    run N env l (s.shift t) = (run N env l s).shift t := by
  have hend : ∀ s1 : State, endOfStream (s1.shift t) = (endOfStream s1).shift t := by
    intro s1
    simp [endOfStream, proceed, Outcome.shift, State.shift, State.log]
  unfold run ingest
  rw [shift_beginTx, shift_andThen t _ _ _ (shift_feed N env t l),
    shift_andThen t _ _ _ hend, shift_andThen t _ _ _ (shift_finish env t)]

/-- When the arguments are given and the setup calls succeed, `main` is the
pipeline with threshold `batchSize` run on an empty table, after the setup
calls. -/
theorem main_eq_run (env : Env) (hargs : 2 ≤ env.args.length)
    (h1 : env.openInputErr = none) (h2 : env.startErr = none) (h3 : env.openDbErr = none)
    (h4 : env.createTableErr = none) :
    main env = (run batchSize env env.stream (State.init [])).shift (setupTrace env) := by
  have hlen : ¬ env.args.length < 2 := by omega
  rw [← shift_run]
  simp [main, hlen, h1, h2, h3, h4, State.shift, State.log, State.init, setupTrace]

/-! ## The claims -/

/-- C1: for every batch threshold `N ≥ 1` and every stream on which no
decode, insert, begin, prepare or commit call fails, the table holds at the end
of the run exactly one row `(ID, Lat, Lon, Tags["name"])` per node of the
stream, in stream order; ways and relations contribute no row. -/
theorem C1_rows_are_points (N : Nat) (env : Env) (records : List Decoded) (_hN : 1 ≤ N)
    (hok : NoFailure Op.ingestStep (run N env records (State.init [])).st.trace) :
    (run N env records (State.init [])).st.store
        = (points records).map (fun v => ⟨v.id, v.lat, v.lon, mapIndex v.tags "name"⟩) ∧
      (run N env records (State.init [])).st.store.length = (points records).length := by
  have key : (run N env records (State.init [])).st.store = (points records).map rowOf := by
    by_cases h : (ingest N env records (State.init [])).exit = Exit.success
    · have hI := inv_ingest N env records h
      have hall := inv_all_rows N _ _ hI
      rw [run_of_ingest_success _ _ _ _ h] at hok ⊢
      generalize (ingest N env records (State.init [])).st = s at hok hall
      cases hc : env.commitErr s.tx with
      | some e =>
        exfalso
        simp only [finish, State.log, hc, fatal] at hok
        have := hok ⟨Op.commit s.tx s.pending, some e⟩ (by simp) rfl
        simp at this
      | none =>
        cases hi : env.indexErr with
        | some e => simpa [finish, State.log, hc, hi, fatal] using hall
        | none => simpa [finish, State.log, hc, hi, proceed] using hall
    · exfalso
      rw [run_of_ingest_ne_success _ _ _ _ h] at hok
      exact failStop_absurd _ (failStop_ingest N env records _ (noFailure_nil _)) h hok
  refine ⟨key, ?_⟩
  rw [key, List.length_map]

/-- C1 at the stream of scenario 1 with `N = 2`. -/
theorem C1_rows_are_points_witness :
    (1 ≤ 2 ∧ NoFailure Op.ingestStep (run 2 envQuiet demoStream (State.init [])).st.trace) ∧
      ((run 2 envQuiet demoStream (State.init [])).st.store
        = (points demoStream).map (fun v => ⟨v.id, v.lat, v.lon, mapIndex v.tags "name"⟩) ∧
      (run 2 envQuiet demoStream (State.init [])).st.store.length = (points demoStream).length) :=
  ⟨⟨by decide, by decide⟩, C1_rows_are_points 2 envQuiet demoStream (by decide) (by decide)⟩

/-- C2: for `N ≥ 1` and `k ≥ 1`, when a part of the stream with exactly
`k * N` nodes has been processed without failure, exactly `k` transactions have
been committed and exactly `k` progress lines printed, the `i`-th reporting
`i * N`; after any part of the stream with `p` nodes the number of commits and of
progress lines is `p / N`, so none happens at count 0 or between multiples of
`N`. -/
theorem C2_rollover_count_exact (N k : Nat) (env : Env) (pre : List Decoded)
    (hN : 1 ≤ N) (_hk : 1 ≤ k) (hP : (points pre).length = k * N)
    (hok : (ingest N env pre (State.init [])).exit = Exit.success) :
    (commitsOf (ingest N env pre (State.init [])).st.trace).length = k ∧
      (printsOf (ingest N env pre (State.init [])).st.trace).length = k ∧
      printsOf (ingest N env pre (State.init [])).st.trace
        = (List.range k).map (fun i => progressLine ((i + 1) * N)) ∧
      (∀ a : List Decoded, (ingest N env a (State.init [])).exit = Exit.success →
        (commitsOf (ingest N env a (State.init [])).st.trace).length = (points a).length / N ∧
        (printsOf (ingest N env a (State.init [])).st.trace).length = (points a).length / N) := by
  have hI := inv_ingest N env pre hok
  have hk : (points pre).length / N = k := by
    rw [hP]; exact Nat.mul_div_cancel k hN
  refine ⟨?_, ?_, ?_, ?_⟩
  · rw [hI.commits]; simp [hk]
  · rw [hI.prints]; simp [hk]
  · rw [hI.prints, hk]
  · intro a ha
    have hA := inv_ingest N env a ha
    rw [hA.commits, hA.prints]; simp

/-- C2 at the first three records of scenario 1 with `N = 2`, `k = 1`. -/
theorem C2_rollover_count_exact_witness :
    (1 ≤ 2 ∧ 1 ≤ 1 ∧ (points demoHead).length = 1 * 2 ∧
      (ingest 2 envQuiet demoHead (State.init [])).exit = Exit.success) ∧
    printsOf (ingest 2 envQuiet demoHead (State.init [])).st.trace = ["Processed 2 nodes...\n"] ∧
    (commitsOf (ingest 2 envQuiet demoHead (State.init [])).st.trace).length = 1 :=
  ⟨⟨by decide, by decide, by decide, by decide⟩, by decide,
    (C2_rollover_count_exact 2 1 envQuiet demoHead (by decide) (by decide) (by decide)
      (by decide)).1⟩

/-- C3: for `N ≥ 1`, after any part of the stream the open transaction holds
at most `N` rows (fewer than `N` while the process runs) and no commit is for
more than `N` rows; the transactions committed by rollovers are numbered
`0, 1, ...` and the `i`-th holds exactly the `N` nodes that follow the first
`i * N` nodes, in order; and in a run without failure every transaction number
is committed once and the committed batches, one after the other, are exactly
the rows of the nodes of the stream. -/
theorem C3_batch_contents (N : Nat) (env : Env) (records : List Decoded) (hN : 1 ≤ N) :
    (∀ pre : List Decoded,
      (ingest N env pre (State.init [])).st.pending.length ≤ N ∧
      CommitBound N (ingest N env pre (State.init [])).st.trace ∧
      ((ingest N env pre (State.init [])).exit = Exit.success →
        (ingest N env pre (State.init [])).st.pending.length < N)) ∧
    (∀ pre : List Decoded, (ingest N env pre (State.init [])).exit = Exit.success →
      commitsOf (ingest N env pre (State.init [])).st.trace
        = (List.range ((points pre).length / N)).map (fun i => (i, batch N (points pre) i)) ∧
      (∀ i, i < (points pre).length / N → (batch N (points pre) i).length = N) ∧
      (ingest N env pre (State.init [])).st.tx = (points pre).length / N) ∧
    ((run N env records (State.init [])).exit = Exit.success →
      commitsOf (run N env records (State.init [])).st.trace
        = (List.range ((points records).length / N)).map
            (fun i => (i, batch N (points records) i))
          ++ [((points records).length / N,
              ((points records).drop ((points records).length / N * N)).map rowOf)] ∧
      ((commitsOf (run N env records (State.init [])).st.trace).map Prod.fst).Nodup ∧
      ((commitsOf (run N env records (State.init [])).st.trace).map Prod.snd).flatten
        = (points records).map rowOf) := by
  refine ⟨?_, ?_, ?_⟩
  · intro pre
    obtain ⟨⟨_, h2, h3⟩, h4⟩ := weakLoop_ingest N env hN pre
    refine ⟨h2, h3, fun h => ?_⟩
    rw [h4 h]; exact Nat.mod_lt _ hN
  · intro pre h
    have hI := inv_ingest N env pre h
    exact ⟨hI.commits, fun i hi => length_batch N _ i hi, hI.tx⟩
  · intro h
    obtain ⟨s, hI, _, _, hst⟩ := run_success N env records h
    have hc : commitsOf (run N env records (State.init [])).st.trace
        = (List.range ((points records).length / N)).map
            (fun i => (i, batch N (points records) i))
          ++ [((points records).length / N,
              ((points records).drop ((points records).length / N * N)).map rowOf)] := by
      rw [hst]
      simp only [commitsOf_append, hI.commits, hI.tx, hI.pending]
      simp [commitsOf, Event.commit?]
    refine ⟨hc, ?_, ?_⟩
    · rw [hc]
      simp only [List.map_append, List.map_map, List.map_cons, List.map_nil]
      have e : (Prod.fst ∘ fun i => (i, batch N (points records) i)) = id := rfl
      rw [e, List.map_id, ← List.range_succ]
      exact List.nodup_range _
    · rw [hc]
      simp only [List.map_append, List.map_map, List.map_cons, List.map_nil, List.flatten_append,
        List.flatten_cons, List.flatten_nil, List.append_nil]
      have e : (Prod.snd ∘ fun i => (i, batch N (points records) i))
          = fun i => batch N (points records) i := rfl
      rw [e, join_batches, ← List.map_append, List.take_append_drop]

/-- C3 at scenario 1 with `N = 2`: two commits, of nodes 1, 2 and of node 3. -/
theorem C3_batch_contents_witness :
    (1 ≤ 2 ∧ (run 2 envQuiet demoStream (State.init [])).exit = Exit.success) ∧
    commitsOf (run 2 envQuiet demoStream (State.init [])).st.trace
      = [(0, [⟨1, ⟨10⟩, ⟨20⟩, "A"⟩, ⟨2, ⟨11⟩, ⟨21⟩, ""⟩]), (1, [⟨3, ⟨12⟩, ⟨22⟩, ""⟩])] ∧
    ((commitsOf (run 2 envQuiet demoStream (State.init [])).st.trace).map Prod.snd).flatten
      = (points demoStream).map rowOf :=
  ⟨⟨by decide, by decide⟩, by decide,
    ((C3_batch_contents 2 envQuiet demoStream (by decide)).2.2 (by decide)).2.2⟩

/-- C4: for `N ≥ 1`, a run without failure on a stream with `P` nodes ends
with the calls: close the statement, commit the open transaction number `P / N`,
create the index, print the summary.  That commit is made whatever the number
of its rows, which is `P % N < N` (none when `P = 0` or `N` divides `P`); it is
the `(P / N + 1)`-th commit of the run and the index is created once, after it.
The run succeeds whenever no call fails, also when the last transaction is
empty. -/
theorem C4_final_commit (N : Nat) (env : Env) (records : List Decoded) (hN : 1 ≤ N) :
    ((run N env records (State.init [])).exit = Exit.success →
      (commitsOf (run N env records (State.init [])).st.trace).length
        = (points records).length / N + 1 ∧
      (points records).length % N < N ∧
      ∃ (t : List Event) (rows : List Row),
        (run N env records (State.init [])).st.trace
          = t ++ [⟨Op.closeStmt ((points records).length / N),
                    env.closeErr ((points records).length / N)⟩,
                  ⟨Op.commit ((points records).length / N) rows, none⟩,
                  ⟨Op.createIndex, none⟩,
                  ⟨Op.print (summaryLine (points records).length env.elapsed), none⟩] ∧
        rows = ((points records).drop ((points records).length / N * N)).map rowOf ∧
        rows.length = (points records).length % N ∧
        ((points records).length % N = 0 → rows = []) ∧
        (commitsOf t).length = (points records).length / N ∧
        (∀ ev ∈ t, ev.op ≠ Op.createIndex)) ∧
    (SinkOk env → (∀ rows r, env.execErr rows r = none) → NoDecodeFailure records →
      (run N env records (State.init [])).exit = Exit.success) := by
  refine ⟨fun h => ?_, fun h1 h2 h3 => run_success_of N env h1 h2 records h3⟩
  obtain ⟨s, hI, _, _, hst⟩ := run_success N env records h
  have hlen : (((points records).drop ((points records).length / N * N)).map rowOf).length
      = (points records).length % N := by
    have := Nat.div_add_mod (points records).length N
    have e : N * ((points records).length / N) = (points records).length / N * N := by ring
    simp
    omega
  refine ⟨?_, Nat.mod_lt _ hN, s.trace ++ [⟨Op.decode, none⟩], s.pending, ?_, hI.pending, ?_, ?_,
    ?_, ?_⟩
  · rw [hst]
    simp only [commitsOf_append, hI.commits]
    simp [commitsOf, Event.commit?]
  · rw [hst, hI.tx, hI.count]; simp
  · rw [hI.pending]; exact hlen
  · intro h0
    apply List.eq_nil_of_length_eq_zero
    rw [hI.pending, hlen, h0]
  · simp only [commitsOf_append, hI.commits]
    simp [commitsOf, Event.commit?]
  · intro ev hev
    simp only [List.mem_append, List.mem_singleton] at hev
    rcases hev with hev | hev
    · exact hI.index ev hev
    · subst hev; simp

/-- C4 at scenario 1 with `N = 2` (a last commit of one row) and at its first
two nodes (a last commit of no row). -/
theorem C4_final_commit_witness :
    (1 ≤ 2 ∧ (run 2 envQuiet demoStream (State.init [])).exit = Exit.success ∧
      (run 2 envQuiet (demoStream.take 2) (State.init [])).exit = Exit.success) ∧
    (commitsOf (run 2 envQuiet demoStream (State.init [])).st.trace).length = 2 ∧
    commitsOf (run 2 envQuiet (demoStream.take 2) (State.init [])).st.trace
      = [(0, [⟨1, ⟨10⟩, ⟨20⟩, "A"⟩, ⟨2, ⟨11⟩, ⟨21⟩, ""⟩]), (1, [])] :=
  ⟨⟨by decide, by decide, by decide⟩,
    ((C4_final_commit 2 envQuiet demoStream (by decide)).1 (by decide)).1, by decide⟩

/-- C5: for `N ≥ 1`, when the records `pre` with `c` nodes are processed
without failure and the next record is a decode error, or a node whose insert
fails, the run aborts at that record with the matching failure report: the call
that failed is the last one made, the counter stays `c`, the open transaction
keeps its `c % N` rows and is not committed, the index is not created, and the
table holds exactly the first `c / N * N` nodes, the `c / N` batches committed
by rollovers. -/
theorem C5_abort_keeps_committed_batches (N : Nat) (env : Env) (pre rest : List Decoded)
    (bad : Decoded) (err : String) (_hN : 1 ≤ N)
    (hpre : (ingest N env pre (State.init [])).exit = Exit.success)
    (hbad : bad = Decoded.failure err ∨
      ∃ v, bad = Decoded.entity (Entity.node v) ∧
        env.execErr ((points pre).map rowOf) (rowOf v) = some err) :
    ((run N env (pre ++ bad :: rest) (State.init [])).exit = Exit.fatal ("Error decoding: " ++ err) ∧
        bad = Decoded.failure err ∧
        (run N env (pre ++ bad :: rest) (State.init [])).st.trace
          = (ingest N env pre (State.init [])).st.trace ++ [⟨Op.decode, some err⟩] ∨
      ∃ v, bad = Decoded.entity (Entity.node v) ∧
        (run N env (pre ++ bad :: rest) (State.init [])).exit
          = Exit.fatal ("Error inserting node " ++ toString v.id ++ ": " ++ err) ∧
        (run N env (pre ++ bad :: rest) (State.init [])).st.trace
          = (ingest N env pre (State.init [])).st.trace
            ++ [⟨Op.decode, none⟩, ⟨Op.exec ((points pre).length / N) (rowOf v), some err⟩]) ∧
    (run N env (pre ++ bad :: rest) (State.init [])).st.count = (points pre).length ∧
    (run N env (pre ++ bad :: rest) (State.init [])).st.store
      = ((points pre).take ((points pre).length / N * N)).map rowOf ∧
    (run N env (pre ++ bad :: rest) (State.init [])).st.pending
      = ((points pre).drop ((points pre).length / N * N)).map rowOf ∧
    commitsOf (run N env (pre ++ bad :: rest) (State.init [])).st.trace
      = (List.range ((points pre).length / N)).map (fun i => (i, batch N (points pre) i)) ∧
    (∀ ev ∈ (run N env (pre ++ bad :: rest) (State.init [])).st.trace,
      ev.op ≠ Op.createIndex) :=
  abort_at_record N env pre rest bad err _hN hpre hbad

/-- C5 at scenario 1 with `N = 2`, followed by an insert that violates the
primary key: the table keeps nodes 1 and 2, node 3 is lost. -/
theorem C5_abort_keeps_committed_batches_witness :
    (1 ≤ 2 ∧ (ingest 2 envKey demoStream (State.init [])).exit = Exit.success ∧
      envKey.execErr ((points demoStream).map rowOf) (rowOf ⟨2, ⟨13⟩, ⟨23⟩, []⟩)
        = some "UNIQUE constraint failed: nodes.id") ∧
    (run 2 envKey brokenStream (State.init [])).exit
      = Exit.fatal "Error inserting node 2: UNIQUE constraint failed: nodes.id" ∧
    (run 2 envKey brokenStream (State.init [])).st.store
      = [⟨1, ⟨10⟩, ⟨20⟩, "A"⟩, ⟨2, ⟨11⟩, ⟨21⟩, ""⟩] ∧
    (run 2 envKey (demoStream ++ mkNode 2 13 23 [] :: [Decoded.failure "unexpected EOF"])
      (State.init [])).st.count = (points demoStream).length :=
  ⟨⟨by decide, by decide, by decide⟩, by decide, by decide,
    (C5_abort_keeps_committed_batches 2 envKey demoStream [Decoded.failure "unexpected EOF"]
      (mkNode 2 13 23 []) "UNIQUE constraint failed: nodes.id" (by decide) (by decide)
      (Or.inr ⟨⟨2, ⟨13⟩, ⟨23⟩, []⟩, rfl, by decide⟩)).2.1⟩

/-- C6: a way or a relation changes nothing: the loop goes on with the same
counter, open transaction, table, commits and output (only the `Decode` call is
added to the trace); so for every `N` the run on a stream and the run on the
same stream without its ways and relations end with the same exit, table,
committed batches, progress lines and counter, and make the same calls apart
from successful `Decode` calls. -/
theorem C6_non_points_ignored (N : Nat) (env : Env) :
    (∀ (s : State) (d : Decoded), d.isOther = true →
      (step N env s d).exit = Exit.success ∧
      (step N env s d).st.count = s.count ∧
      (step N env s d).st.pending = s.pending ∧
      (step N env s d).st.store = s.store ∧
      (step N env s d).st.tx = s.tx ∧
      commitsOf (step N env s d).st.trace = commitsOf s.trace ∧
      printsOf (step N env s d).st.trace = printsOf s.trace ∧
      (step N env s d).st.trace = s.trace ++ [⟨Op.decode, none⟩]) ∧
    (∀ records : List Decoded,
      (run N env records (State.init [])).exit
        = (run N env (dropOthers records) (State.init [])).exit ∧
      (run N env records (State.init [])).st.store
        = (run N env (dropOthers records) (State.init [])).st.store ∧
      (run N env records (State.init [])).st.pending
        = (run N env (dropOthers records) (State.init [])).st.pending ∧
      (run N env records (State.init [])).st.count
        = (run N env (dropOthers records) (State.init [])).st.count ∧
      commitsOf (run N env records (State.init [])).st.trace
        = commitsOf (run N env (dropOthers records) (State.init [])).st.trace ∧
      printsOf (run N env records (State.init [])).st.trace
        = printsOf (run N env (dropOthers records) (State.init [])).st.trace ∧
      effects (run N env records (State.init [])).st.trace
        = effects (run N env (dropOthers records) (State.init [])).st.trace) := by
  constructor
  · intro s d hd
    cases d with
    | failure e => simp [Decoded.isOther] at hd
    | entity v =>
      cases v with
      | node n => simp [Decoded.isOther] at hd
      | way w =>
        simp [step, proceed, State.log, commitsOf, printsOf, Event.commit?, Event.print?]
      | relation r =>
        simp [step, proceed, State.log, commitsOf, printsOf, Event.commit?, Event.print?]
  · intro records
    obtain ⟨h0, h1, h2, _, h4, h5⟩ := sameOutcome_run N env records
    refine ⟨h0, h1, h2, h4, ?_, ?_, h5⟩
    · rw [← commitsOf_effects, h5, commitsOf_effects]
    · rw [← printsOf_effects, h5, printsOf_effects]

/-- C7: the counter is 0 before the first record; a record changes it only
when it is a node whose insert succeeds, and then by exactly one; a rollover
leaves it unchanged; it never decreases as more records are processed; in every
outcome it is the number of successful inserts; and a run without failure
prints as its last line the summary with the number of nodes of the stream
(0 for a stream without nodes). -/
theorem C7_counter (N : Nat) (env : Env) (hN : 1 ≤ N) :
    (ingest N env [] (State.init [])).st.count = 0 ∧
    (∀ (s : State) (v : Node),
      (env.execErr (s.store ++ s.pending) (rowOf v) = none →
        (step N env s (Decoded.entity (Entity.node v))).st.count = s.count + 1) ∧
      (env.execErr (s.store ++ s.pending) (rowOf v) ≠ none →
        (step N env s (Decoded.entity (Entity.node v))).st.count = s.count)) ∧
    (∀ (s : State) (d : Decoded), d.node? = none → (step N env s d).st.count = s.count) ∧
    (∀ s : State, (rollover env s).st.count = s.count) ∧
    (∀ a b : List Decoded,
      (ingest N env a (State.init [])).st.count ≤ (ingest N env (a ++ b) (State.init [])).st.count) ∧
    (∀ a : List Decoded,
      (ingest N env a (State.init [])).st.count
        = (execsOf (ingest N env a (State.init [])).st.trace).length) ∧
    (∀ records : List Decoded, (run N env records (State.init [])).exit = Exit.success →
      (run N env records (State.init [])).st.count = (points records).length ∧
      (printsOf (run N env records (State.init [])).st.trace).getLast?
        = some (summaryLine (points records).length env.elapsed)) := by
  refine ⟨?_, ?_, ?_, count_rollover env, ?_, ?_, ?_⟩
  · have e : (ingest N env [] (State.init [])).st.count
        = (beginTx env 0 (State.init [])).st.count := by
      unfold ingest
      by_cases h : (beginTx env 0 (State.init [])).exit = Exit.success
      · rw [andThen_of_success _ _ h]; rfl
      · rw [andThen_of_ne_success _ _ h]
    rw [e, count_beginTx]; rfl
  · intro s v
    constructor
    · intro h
      show (onNode N env (s.log Op.decode none) v).st.count = s.count + 1
      rw [count_onNode]
      simp [State.log, h]
    · intro h
      show (onNode N env (s.log Op.decode none) v).st.count = s.count
      rw [count_onNode]
      simp [State.log, h]
  · intro s d hd
    cases d with
    | failure e => rfl
    | entity v =>
      cases v with
      | node n => simp [Decoded.node?] at hd
      | way w => rfl
      | relation r => rfl
  · intro a b
    rw [ingest_append]
    by_cases h : (ingest N env a (State.init [])).exit = Exit.success
    · rw [andThen_of_success _ _ h]
      exact count_le_feed N env b _
    · rw [andThen_of_ne_success _ _ h]
  · intro a
    exact (weakLoop_ingest N env hN a).1.1
  · intro records h
    obtain ⟨s, hI, _, _, hst⟩ := run_success N env records h
    rw [hst]
    refine ⟨hI.count, ?_⟩
    simp only [printsOf_append, hI.count]
    simp [printsOf, Event.print?]

/-- C7 at scenario 1 with `N = 2` and at the empty stream. -/
theorem C7_counter_witness :
    (1 ≤ 2 ∧ (run 2 envQuiet demoStream (State.init [])).exit = Exit.success ∧
      (run 2 envQuiet [] (State.init [])).exit = Exit.success) ∧
    (run 2 envQuiet demoStream (State.init [])).st.count = 3 ∧
    (printsOf (run 2 envQuiet [] (State.init [])).st.trace).getLast?
      = some "Finished processing 0 nodes in 1.5s\n" ∧
    (run 2 envQuiet demoStream (State.init [])).st.count = (points demoStream).length :=
  ⟨⟨by decide, by decide, by decide⟩, by decide, by decide,
    ((C7_counter 2 envQuiet (by decide)).2.2.2.2.2.2 demoStream (by decide)).1⟩

/-- C8: with a database that refuses an insert exactly when the identifier
is already in the table or in the open transaction, and that fails nowhere
else, a stream without decode errors is imported completely if and only if
the identifiers of its nodes are pairwise distinct, and then the stored rows
have pairwise distinct identifiers; otherwise the run aborts at the first node
whose identifier repeats that of an earlier node, with a failure report that
names this identifier. -/
theorem C8_primary_key (N : Nat) (env : Env) (records : List Decoded) (_hN : 1 ≤ N)
    (hsink : SinkOk env)
    (hkey : ∀ rows r, env.execErr rows r = none ↔ r.id ∉ rows.map Row.id)
    (hdec : NoDecodeFailure records) :
    ((run N env records (State.init [])).exit = Exit.success ↔
      ((points records).map Node.id).Nodup) ∧
    ((run N env records (State.init [])).exit = Exit.success →
      ((run N env records (State.init [])).st.store.map Row.id).Nodup ∧
      (run N env records (State.init [])).st.store = (points records).map rowOf) ∧
    (¬ ((points records).map Node.id).Nodup →
      ∃ (pre : List Decoded) (v : Node) (rest : List Decoded) (e : String),
        records = pre ++ Decoded.entity (Entity.node v) :: rest ∧
        ((points pre).map Node.id).Nodup ∧ v.id ∈ (points pre).map Node.id ∧
        (run N env records (State.init [])).exit
          = Exit.fatal ("Error inserting node " ++ toString v.id ++ ": " ++ e) ∧
        (run N env records (State.init [])).st.count = (points pre).length) := by
  have hdup : ¬ ((points records).map Node.id).Nodup →
      ∃ (pre : List Decoded) (v : Node) (rest : List Decoded) (e : String),
        records = pre ++ Decoded.entity (Entity.node v) :: rest ∧
        ((points pre).map Node.id).Nodup ∧ v.id ∈ (points pre).map Node.id ∧
        (run N env records (State.init [])).exit
          = Exit.fatal ("Error inserting node " ++ toString v.id ++ ": " ++ e) ∧
        (run N env records (State.init [])).st.count = (points pre).length := by
    intro h
    obtain ⟨pre, v, rest, e, h1, h2⟩ := first_duplicate records h
    subst e
    have hpre := ingest_success_of_nodup N env hsink hkey pre
      ((noDecodeFailure_append _ _).1 hdec).1 h1
    cases hx : env.execErr ((points pre).map rowOf) (rowOf v) with
    | none =>
      exfalso
      rw [hkey, map_id_rowOf] at hx
      exact hx h2
    | some err =>
      obtain ⟨hexit, hcount, _⟩ := abort_at_record N env pre rest _ err _hN hpre
        (Or.inr ⟨v, rfl, hx⟩)
      rcases hexit with ⟨_, hb, _⟩ | ⟨v', hb, hexit, _⟩
      · cases hb
      · cases hb
        exact ⟨pre, v, rest, err, rfl, h1, h2, hexit, hcount⟩
  have hiff : (run N env records (State.init [])).exit = Exit.success ↔
      ((points records).map Node.id).Nodup := by
    constructor
    · intro h
      by_contra hnd
      obtain ⟨_, _, _, _, _, _, _, hexit, _⟩ := hdup hnd
      rw [hexit] at h
      cases h
    · intro hnd
      have h1 := ingest_success_of_nodup N env hsink hkey records hdec hnd
      rw [run_of_ingest_success _ _ _ _ h1]
      simp [finish, hsink.2.2.1, hsink.2.2.2, proceed]
  refine ⟨hiff, fun h => ?_, hdup⟩
  obtain ⟨s, hI, _, _, hst⟩ := run_success N env records h
  have hstore : (run N env records (State.init [])).st.store = (points records).map rowOf := by
    rw [hst]; exact inv_all_rows N _ _ hI
  refine ⟨?_, hstore⟩
  rw [hstore, map_id_rowOf]
  exact hiff.1 h

/-- C8 at scenario 1 with `N = 2` (distinct identifiers, the run completes)
and at the same stream followed by a second node 2 (the run aborts there). -/
theorem C8_primary_key_witness :
    (1 ≤ 2 ∧ SinkOk envKey ∧
      (∀ rows r, envKey.execErr rows r = none ↔ r.id ∉ rows.map Row.id) ∧
      NoDecodeFailure demoStream) ∧
    ((run 2 envKey demoStream (State.init [])).exit = Exit.success ↔
      ((points demoStream).map Node.id).Nodup) ∧
    (run 2 envKey demoStream (State.init [])).exit = Exit.success ∧
    (run 2 envKey (demoStream ++ [mkNode 2 13 23 []]) (State.init [])).exit
      = Exit.fatal "Error inserting node 2: UNIQUE constraint failed: nodes.id" :=
  ⟨⟨by decide, ⟨fun _ => rfl, fun _ => rfl, fun _ => rfl, rfl⟩,
      fun rows r => by simp [envKey],
      fun e h => by simp [demoStream, mkNode] at h⟩,
    (C8_primary_key 2 envKey demoStream (by decide) ⟨fun _ => rfl, fun _ => rfl, fun _ => rfl, rfl⟩
      (fun rows r => by simp [envKey]) (fun e h => by simp [demoStream, mkNode] at h)).1,
    by decide, by decide⟩

/-- C10: for a node without a `"name"` key (the empty map included) the
insert is executed with the empty string as label, and when the database
accepts it the node is counted; for a node with a `"name"` key the label is the
value stored under it; two nodes that agree on identifier, coordinates and
`"name"` are processed alike, so no other attribute reaches the database. -/
theorem C10_label (N : Nat) (env : Env) (s : State) :
    (∀ v : Node, v.tags.lookup "name" = none →
      rowOf v = ⟨v.id, v.lat, v.lon, ""⟩ ∧
      (⟨Op.exec s.tx ⟨v.id, v.lat, v.lon, ""⟩,
          env.execErr (s.store ++ s.pending) ⟨v.id, v.lat, v.lon, ""⟩⟩ : Event)
        ∈ (step N env s (Decoded.entity (Entity.node v))).st.trace ∧
      (env.execErr (s.store ++ s.pending) ⟨v.id, v.lat, v.lon, ""⟩ = none →
        (step N env s (Decoded.entity (Entity.node v))).st.count = s.count + 1 ∧
        (⟨v.id, v.lat, v.lon, ""⟩ : Row)
          ∈ execsOf (step N env s (Decoded.entity (Entity.node v))).st.trace)) ∧
    (∀ (v : Node) (x : String), v.tags.lookup "name" = some x →
      rowOf v = ⟨v.id, v.lat, v.lon, x⟩) ∧
    (∀ v w : Node, v.id = w.id → v.lat = w.lat → v.lon = w.lon →
      v.tags.lookup "name" = w.tags.lookup "name" →
      rowOf v = rowOf w ∧
      step N env s (Decoded.entity (Entity.node v))
        = step N env s (Decoded.entity (Entity.node w))) := by
  have hmem : ∀ v : Node,
      (⟨Op.exec s.tx (rowOf v), env.execErr (s.store ++ s.pending) (rowOf v)⟩ : Event)
        ∈ (step N env s (Decoded.entity (Entity.node v))).st.trace ∧
      (env.execErr (s.store ++ s.pending) (rowOf v) = none →
        rowOf v ∈ execsOf (step N env s (Decoded.entity (Entity.node v))).st.trace) := by
    intro v
    cases hx : env.execErr (s.store ++ s.pending) (rowOf v) with
    | some e =>
      refine ⟨?_, fun h => by cases h⟩
      simp [step, onNode, State.log, hx, fatal]
    | none =>
      by_cases hm : (s.count + 1) % N = 0
      · cases hc : env.commitErr s.tx with
        | some e =>
          simp [step, onNode, State.log, hx, hm, rollover, hc, fatal, execsOf, Event.exec?]
        | none =>
          cases hb : env.beginErr (s.tx + 1) with
          | some e =>
            simp [step, onNode, State.log, hx, hm, rollover, hc, beginTx, hb, fatal, execsOf,
              Event.exec?]
          | none =>
            cases hp : env.prepareErr (s.tx + 1) with
            | some e =>
              simp [step, onNode, State.log, hx, hm, rollover, hc, beginTx, hb, hp, fatal,
                execsOf, Event.exec?]
            | none =>
              simp [step, onNode, State.log, hx, hm, rollover, hc, beginTx, hb, hp, proceed,
                execsOf, Event.exec?]
      · simp [step, onNode, State.log, hx, hm, proceed, execsOf, Event.exec?]
  refine ⟨?_, ?_, ?_⟩
  · intro v hv
    have hrow : rowOf v = ⟨v.id, v.lat, v.lon, ""⟩ := by simp [rowOf, mapIndex, hv]
    rw [← hrow]
    refine ⟨rfl, (hmem v).1, fun hx => ⟨?_, (hmem v).2 hx⟩⟩
    show (onNode N env (s.log Op.decode none) v).st.count = s.count + 1
    rw [count_onNode]
    simp [State.log, hx]
  · intro v x hv
    simp [rowOf, mapIndex, hv]
  · intro v w h1 h2 h3 h4
    have hrow : rowOf v = rowOf w := by simp [rowOf, mapIndex, h1, h2, h3, h4]
    refine ⟨hrow, ?_⟩
    simp only [step, onNode, hrow, h1]

/-- C10 at a node with the empty map and at a node with a `"name"` and
another attribute. -/
theorem C10_label_witness :
    ((⟨5, ⟨1⟩, ⟨2⟩, []⟩ : Node).tags.lookup "name" = none ∧
      envQuiet.execErr [] ⟨5, ⟨1⟩, ⟨2⟩, ""⟩ = none) ∧
    rowOf ⟨5, ⟨1⟩, ⟨2⟩, []⟩ = ⟨5, ⟨1⟩, ⟨2⟩, ""⟩ ∧
    rowOf ⟨6, ⟨1⟩, ⟨2⟩, [("ele", "7"), ("name", "Col")]⟩ = ⟨6, ⟨1⟩, ⟨2⟩, "Col"⟩ ∧
    (step 2 envQuiet (State.init []) (mkNode 5 1 2 [])).st.count = 1 :=
  ⟨⟨by decide, rfl⟩,
    ((C10_label 2 envQuiet (State.init [])).1 ⟨5, ⟨1⟩, ⟨2⟩, []⟩ (by decide)).1,
    by decide, by decide⟩

/-- C9 as stated fails: in a run where `os.Remove` returns an error (there
is no file to remove) and in a run where `stmtNode.Close()` returns an error,
the error is dropped and the process ends successfully. -/
theorem C9_counterexample :
    ((⟨Op.removeDb, some "remove nodes.db: no such file or directory"⟩ : Event)
        ∈ (main envQuiet).st.trace ∧
      (main envQuiet).exit = Exit.success) ∧
    ((⟨Op.closeStmt 0, some "sql: statement close failed"⟩ : Event)
        ∈ (main envCloseFails).st.trace ∧
      (main envCloseFails).exit = Exit.success ∧
      (main envCloseFails).st.store.length = 3) := by
  decide

/-- C9 amended: the tested calls are all calls but `os.Remove`,
`stmtNode.Close()` and printing.  A tested call that returns an error is the
last call of the process, which exits with a failure report ending in that
error; every failure report arises so; and the errors returned by `os.Remove`
and `stmtNode.Close()` change neither the exit, the table, the counter, the
committed batches nor the output. -/
theorem C9_checked_errors_fatal (env : Env) :
    (∀ op : Op, op.checked = true ↔
      (op ≠ Op.removeDb ∧ (∀ k, op ≠ Op.closeStmt k) ∧ ∀ line, op ≠ Op.print line)) ∧
    (∀ (t : List Event) (op : Op) (e : String) (t' : List Event),
      (main env).st.trace = t ++ ⟨op, some e⟩ :: t' → op.checked = true →
        t' = [] ∧ ∃ p, (main env).exit = Exit.fatal (p ++ e)) ∧
    (∀ m, (main env).exit = Exit.fatal m →
      ∃ (t : List Event) (op : Op) (e p : String),
        (main env).st.trace = t ++ [⟨op, some e⟩] ∧ op.checked = true ∧ m = p ++ e) ∧
    (∀ (r : Option String) (c : Nat → Option String),
      (main (env.withIgnored r c)).exit = (main env).exit ∧
      (main (env.withIgnored r c)).st.store = (main env).st.store ∧
      (main (env.withIgnored r c)).st.count = (main env).st.count ∧
      commitsOf (main (env.withIgnored r c)).st.trace = commitsOf (main env).st.trace ∧
      printsOf (main (env.withIgnored r c)).st.trace = printsOf (main env).st.trace) := by
  refine ⟨?_, ?_, ?_, ?_⟩
  · intro op
    cases op <;> simp [Op.checked]
  · intro t op e t' htr hop
    have hclean : ¬ NoFailure Op.checked (main env).st.trace := by
      intro hnf
      have := hnf ⟨op, some e⟩ (by rw [htr]; simp) hop
      simp at this
    rcases main_cases env with ⟨_, hnf⟩ | hfs
    · exact absurd hnf hclean
    · unfold FailStop at hfs
      split at hfs
      · exact absurd hfs hclean
      · rename_i m hm
        obtain ⟨t0, op0, e0, p, h1, _, h3, h4⟩ := hfs
        have hnot : (⟨op, some e⟩ : Event) ∉ t0 := by
          intro hmem
          have := h3 _ hmem hop
          simp at this
        obtain ⟨ht', hev⟩ := last_of_noFailure t t' t0 _ _ (by rw [← htr, h1]) hnot
        have he : e = e0 := by
          have := congrArg Event.err hev
          simpa using this
        exact ⟨ht', p, by rw [hm, h4, he]⟩
      · exact absurd hfs id
  · intro m hm
    rcases main_cases env with ⟨hu, _⟩ | hfs
    · rw [hu] at hm; cases hm
    · unfold FailStop at hfs
      rw [hm] at hfs
      obtain ⟨t0, op0, e0, p, h1, h2, _, h4⟩ := hfs
      exact ⟨t0, op0, e0, p, h1, h2, h4⟩
  · intro r c
    obtain ⟨h0, h1, _, _, h4, h5⟩ := alikeOutcome_main env r c
    refine ⟨h0.symm, h1.symm, h4.symm, ?_, ?_⟩
    · rw [← commitsOf_scrub, ← h5, commitsOf_scrub]
    · rw [← printsOf_scrub, ← h5, printsOf_scrub]

/-- C9 amended, at a run whose third insert violates the primary key: the
failed insert is the last call and its error ends the failure report. -/
theorem C9_checked_errors_fatal_witness :
    (main envBroken).exit
        = Exit.fatal "Error inserting node 2: UNIQUE constraint failed: nodes.id" ∧
    (∀ m, (main envBroken).exit = Exit.fatal m →
      ∃ (t : List Event) (op : Op) (e p : String),
        (main envBroken).st.trace = t ++ [⟨op, some e⟩] ∧
        op.checked = true ∧ m = p ++ e) :=
  ⟨by decide, (C9_checked_errors_fatal envBroken).2.2.1⟩

end OsmSqlite
